import Mathlib

/-!
Verification of the yara-x front end (`parser-ng`), the `math` module helpers
and the metadata linter, against their natural-language specification.

The development shallowly embeds the code of `src/parser-ng/src/parser/mod.rs`,
`src/yara-x/src/modules/math.rs` and `src/lib/src/compiler/linters.rs`.
Components of the repository that are not part of the provided sources (the
tokenizer, the token stream and the syntax stream) are modelled from the spec;
each such definition carries a doc comment starting with `Modelled from the
spec:`.
-/

namespace YaraX

/-- A span `[start, stop)` of byte offsets into the source. -/
structure Span where
  start : Nat
  stop : Nat
deriving DecidableEq, Repr

/-- Modelled from the spec: the byte range of a span, as used by
`Span::range()` when slicing the source (`source().get(span.range())`).
Returns `none` exactly when the slice operation would return `None`
(i.e. when the range is invalid or exceeds the source length). -/
def source_text (src : List Char) (sp : Span) : Option String :=
  if sp.start ≤ sp.stop ∧ sp.stop ≤ src.length then
    some (String.mk ((src.drop sp.start).take (sp.stop - sp.start)))
  else none

/-- The closed enumeration of terminal and nonterminal kinds
(`SyntaxKind` in the source). Only the kinds referenced by the
parser in `mod.rs` are listed. -/
inductive SyntaxKind where
  -- trivia tokens
  | WHITESPACE | COMMENT
  -- keywords
  | IMPORT_KW | RULE_KW | PRIVATE_KW | GLOBAL_KW | META_KW | STRINGS_KW
  | CONDITION_KW | TRUE_KW | FALSE_KW | NOT_KW | DEFINED_KW | AND_KW | OR_KW
  | AT_KW | IN_KW | OF_KW | FOR_KW | THEM_KW | ALL_KW | NONE_KW | ANY_KW
  | ASCII_KW | WIDE_KW | NOCASE_KW | FULLWORD_KW | BASE64_KW | BASE64WIDE_KW
  | XOR_KW | FILESIZE_KW | ENTRYPOINT_KW
  | CONTAINS_KW | ICONTAINS_KW | STARTSWITH_KW | ISTARTSWITH_KW
  | ENDSWITH_KW | IENDSWITH_KW | MATCHES_KW
  -- literals and identifiers
  | IDENT | INTEGER_LIT | FLOAT_LIT | STRING_LIT | REGEXP | HEX_BYTE
  | PATTERN_IDENT | PATTERN_COUNT | PATTERN_OFFSET | PATTERN_LENGTH
  -- punctuation and operators
  | COLON | EQUAL | L_BRACE | R_BRACE | L_PAREN | R_PAREN | L_BRACKET
  | R_BRACKET | COMMA | DOT | MINUS | HYPHEN | PIPE | ASTERISK | PERCENT
  | EQ | NE | LE | LT | GE | GT
  | ADD | SUB | MUL | DIV | MOD | SHL | SHR
  | BITWISE_AND | BITWISE_OR | BITWISE_XOR | BITWISE_NOT
  -- unknown / unlexable input
  | UNKNOWN
  -- nonterminal kinds
  | SOURCE_FILE | IMPORT_STMT | RULE_DECL | RULE_MODS | RULE_TAGS
  | META_BLK | META_DEF | PATTERNS_BLK | PATTERN_DEF | PATTERN_MODS
  | PATTERN_MOD | CONDITION_BLK | HEX_PATTERN | HEX_SUB_PATTERN
  | HEX_ALTERNATIVE | HEX_JUMP | BOOLEAN_EXPR | BOOLEAN_TERM | EXPR | TERM
  | PRIMARY_EXPR | FOR_EXPR | OF_EXPR | QUANTIFIER | ITERABLE | RANGE
  | EXPR_TUPLE | BOOLEAN_EXPR_TUPLE | PATTERN_IDENT_TUPLE | ERROR
deriving DecidableEq, Repr

open SyntaxKind

/-- Modelled from the spec: trivia tokens are whitespace, newlines and
comments (`Token::is_trivia` lives in the tokenizer, which is not among the
sources). Newlines are covered by the `WHITESPACE` aggregator kind. -/
def SyntaxKind.is_trivia : SyntaxKind → Bool
  | WHITESPACE => true
  | COMMENT => true
  | _ => false

/-- Modelled from the spec: the stable textual description of each token kind
used in error messages (`TokenId::description` lives in the tokenizer, which
is not among the sources): keywords and punctuation are shown between
backticks, literal classes get an English name. -/
def SyntaxKind.description : SyntaxKind → String
  | WHITESPACE => "whitespace"
  | COMMENT => "comment"
  | IMPORT_KW => "`import`"
  | RULE_KW => "`rule`"
  | PRIVATE_KW => "`private`"
  | GLOBAL_KW => "`global`"
  | META_KW => "`meta`"
  | STRINGS_KW => "`strings`"
  | CONDITION_KW => "`condition`"
  | TRUE_KW => "`true`"
  | FALSE_KW => "`false`"
  | NOT_KW => "`not`"
  | DEFINED_KW => "`defined`"
  | AND_KW => "`and`"
  | OR_KW => "`or`"
  | AT_KW => "`at`"
  | IN_KW => "`in`"
  | OF_KW => "`of`"
  | FOR_KW => "`for`"
  | THEM_KW => "`them`"
  | ALL_KW => "`all`"
  | NONE_KW => "`none`"
  | ANY_KW => "`any`"
  | ASCII_KW => "`ascii`"
  | WIDE_KW => "`wide`"
  | NOCASE_KW => "`nocase`"
  | FULLWORD_KW => "`fullword`"
  | BASE64_KW => "`base64`"
  | BASE64WIDE_KW => "`base64wide`"
  | XOR_KW => "`xor`"
  | FILESIZE_KW => "`filesize`"
  | ENTRYPOINT_KW => "`entrypoint`"
  | CONTAINS_KW => "`contains`"
  | ICONTAINS_KW => "`icontains`"
  | STARTSWITH_KW => "`startswith`"
  | ISTARTSWITH_KW => "`istartswith`"
  | ENDSWITH_KW => "`endswith`"
  | IENDSWITH_KW => "`iendswith`"
  | MATCHES_KW => "`matches`"
  | IDENT => "identifier"
  | INTEGER_LIT => "integer literal"
  | FLOAT_LIT => "float literal"
  | STRING_LIT => "string literal"
  | REGEXP => "regular expression"
  | HEX_BYTE => "byte"
  | PATTERN_IDENT => "pattern identifier"
  | PATTERN_COUNT => "pattern count"
  | PATTERN_OFFSET => "pattern offset"
  | PATTERN_LENGTH => "pattern length"
  | COLON => "`:`"
  | EQUAL => "`=`"
  | L_BRACE => "`\x7b`"
  | R_BRACE => "`\x7d`"
  | L_PAREN => "`(`"
  | R_PAREN => "`)`"
  | L_BRACKET => "`[`"
  | R_BRACKET => "`]`"
  | COMMA => "`,`"
  | DOT => "`.`"
  | MINUS => "`-`"
  | HYPHEN => "`-`"
  | PIPE => "`|`"
  | ASTERISK => "`*`"
  | PERCENT => "`%`"
  | EQ => "`==`"
  | NE => "`!=`"
  | LE => "`<=`"
  | LT => "`<`"
  | GE => "`>=`"
  | GT => "`>`"
  | ADD => "`+`"
  | SUB => "`-`"
  | MUL => "`*`"
  | DIV => "`\\`"
  | MOD => "`%`"
  | SHL => "`<<`"
  | SHR => "`>>`"
  | BITWISE_AND => "`&`"
  | BITWISE_OR => "`|`"
  | BITWISE_XOR => "`^`"
  | BITWISE_NOT => "`~`"
  | _ => "token"

/-- Modelled from the spec: a lexed token is a kind plus a span into the
source. The tokenizer (not among the sources) produces these on demand; its
losslessness contract (token spans tile the source) is taken as a hypothesis
where needed. -/
structure Token where
  kind : SyntaxKind
  span : Span
deriving DecidableEq, Repr

/-- The parser's output unit (`Event` in the source): `Begin(kind)`,
`End(kind)`, `EndWithError`, `Token{kind, span}`, `Error{message, span}`.
These are the event shapes given by the spec's data model; the syntax-stream
module itself is not among the sources. -/
inductive Event where
  | begin (kind : SyntaxKind)
  | close (kind : SyntaxKind)
  | closeWithError
  | token (kind : SyntaxKind) (span : Span)
  | error (message : String) (span : Span)
deriving DecidableEq, Repr

/-- Modelled from the spec: the append-only buffer of events
(`SyntaxStream`, not among the sources), with the operations `begin(kind)`,
`end`, `end_with_error`, `push_token`, `push_error`, `bookmark` and
`truncate`. `opens` is the stack of currently open `Begin` kinds (most
recent first), used by `end` to emit the matching kind. -/
structure SyntaxStream where
  events : List Event
  opens : List SyntaxKind
deriving DecidableEq, Repr

namespace SyntaxStream

def empty : SyntaxStream := ⟨[], []⟩

def begin (st : SyntaxStream) (kind : SyntaxKind) : SyntaxStream :=
  ⟨st.events ++ [Event.begin kind], kind :: st.opens⟩

/-- Closes the innermost open node, emitting `End` with its kind.
Mirrors `SyntaxStream::end`. Closing with no open node is a bug in the
caller; the parser never does it. -/
def close (st : SyntaxStream) : SyntaxStream :=
  match st.opens with
  | [] => ⟨st.events ++ [Event.close ERROR], []⟩
  | k :: rest => ⟨st.events ++ [Event.close k], rest⟩

/-- Closes the innermost open node marking it as an error node, but keeping
its children (`SyntaxStream::end_with_error`). -/
def close_with_error (st : SyntaxStream) : SyntaxStream :=
  match st.opens with
  | [] => ⟨st.events ++ [Event.closeWithError], []⟩
  | _ :: rest => ⟨st.events ++ [Event.closeWithError], rest⟩

def push_token (st : SyntaxStream) (kind : SyntaxKind) (sp : Span) : SyntaxStream :=
  ⟨st.events ++ [Event.token kind sp], st.opens⟩

def push_error (st : SyntaxStream) (msg : String) (sp : Span) : SyntaxStream :=
  ⟨st.events ++ [Event.error msg sp], st.opens⟩

end SyntaxStream

/-- The parser state machine's non-terminal states. `StartOfInput` and
`EndOfInput` are handled by the driver (`ParserImpl::next`); during parsing
the state is `OK` or `Failure`. -/
inductive PMode where
  | ok
  | failure
deriving DecidableEq, Repr

/-- Abnormal outcomes of the embedded code: `fatal` models a Rust panic
(`unreachable!`, a failed `assert!` or `unwrap`), `nofuel` means the fuel
of the embedding was exhausted (the Rust code has no such bound; fuel
sufficiency is part of termination). -/
inductive PErr where
  | fatal (msg : String)
  | nofuel
deriving DecidableEq, Repr

/-- The state of `ParserImpl`: token cursor, output stream, state flag,
depth counters, the three error containers and the packrat failure cache.

The token stream and tokenizer are not among the sources; modelled from the
spec, the stream is the list of tokens the tokenizer would produce, with a
cursor `pos`. Mode switches (`enter_hex_pattern_mode`, `enter_hex_jump_mode`)
only select how the missing tokenizer lexes subsequent bytes, so they are
absorbed into the given token list and are no-ops here; the spans still tile
the source in every mode, which is the only tokenizer fact the claims use.

The hash containers are modelled with insertion-order iteration, which is the
iteration order the code's own comments assume ("If several errors start at
the same offset, the last one is used"). -/
structure PState where
  src : List Char
  toks : List Token
  pos : Nat
  out : SyntaxStream
  state : PMode
  opt_depth : Nat
  not_depth : Nat
  expected : List (Span × List String)
  unexpected : List Span
  pending : List (Span × String)
  cache : List (Nat × SyntaxKind)
deriving DecidableEq, Repr

/-- The result type of every embedded parser operation. -/
abbrev M := PState → Except PErr PState

/-- A set of tokens passed to `expect` (`TokenSet` in the source). -/
abbrev TokenSet := List SyntaxKind

/-- `TokenSet::contains`: the member of the set matching the token, if any. -/
def ts_contains (ts : TokenSet) (t : Token) : Option SyntaxKind :=
  ts.find? (fun k => decide (k = t.kind))

/-- Extends an `IndexSet` of descriptions with new ones, skipping elements
already present and appending new ones at the end. -/
def iset_extend (base : List String) (ds : List String) : List String :=
  ds.foldl (fun acc d => if d ∈ acc then acc else acc ++ [d]) base

/-- `expected_token_errors.entry(span).or_default().extend(ds)`: an
insertion-ordered map from spans to insertion-ordered description sets. -/
def emap_extend (m : List (Span × List String)) (sp : Span) (ds : List String) :
    List (Span × List String) :=
  match m with
  | [] => [(sp, iset_extend [] ds)]
  | (sp', ds') :: rest =>
    if sp' = sp then (sp', iset_extend ds' ds) :: rest
    else (sp', ds') :: emap_extend rest sp ds

/-- `unexpected_token_errors.insert(span)`: insertion-ordered set. -/
def uset_insert (l : List Span) (sp : Span) : List Span :=
  if sp ∈ l then l else l ++ [sp]

/-- `max_by_key(|(span, _)| span.start())` over the drained `expected` map:
the last element attaining the maximal start offset. -/
def max_expected (l : List (Span × List String)) : Option (Span × List String) :=
  l.foldl
    (fun acc e =>
      match acc with
      | none => some e
      | some a => if a.1.start ≤ e.1.start then some e else some a)
    none

/-- `max_by_key(|span| span.start())` over the drained `unexpected` set. -/
def max_unexpected (l : List Span) : Option Span :=
  l.foldl
    (fun acc sp =>
      match acc with
      | none => some sp
      | some a => if a.start ≤ sp.start then some sp else some a)
    none

/-- `split_last` on the descriptions collected for a span: all but the last,
and the last. -/
def split_last (l : List String) : Option (List String × String) :=
  match l.getLast? with
  | none => none
  | some last => some (l.dropLast, last)

namespace Parser

/-- `ParserImpl::peek`. -/
def peek (s : PState) : Option Token := s.toks.get? s.pos

/-- `ParserImpl::peek_non_ws`: the next non-trivia token, without consuming. -/
def peek_non_ws (s : PState) : Option Token :=
  (s.toks.drop s.pos).find? (fun t => ! t.kind.is_trivia)

/-- `ParserImpl::bump`: consume the next token (if any) and append it to the
output. -/
def bump (s : PState) : PState :=
  match s.toks.get? s.pos with
  | some t => { s with pos := s.pos + 1, out := s.out.push_token t.kind t.span }
  | none => s

/-- A bookmark over both streams (`Bookmark` in the source): token position
plus the output length and open-node stack at creation time. -/
structure Bookmark where
  pos : Nat
  out_len : Nat
  out_opens : List SyntaxKind
deriving DecidableEq, Repr

def bookmark (s : PState) : Bookmark :=
  ⟨s.pos, s.out.events.length, s.out.opens⟩

/-- `ParserImpl::restore_bookmark`: rewinds the token cursor and truncates
the output back to the bookmark. -/
def restore_bookmark (s : PState) (b : Bookmark) : PState :=
  { s with pos := b.pos, out := ⟨s.out.events.take b.out_len, b.out_opens⟩ }

/-- `ParserImpl::recover`. -/
def recover (s : PState) : PState := { s with state := PMode.ok }

/-- The loop inside `ParserImpl::trivia`, consuming trivia tokens. The fuel
`n` bounds iterations; `toks.length - pos` always suffices because `bump`
advances the cursor. -/
def trivia_go : Nat → PState → PState
  | 0, s => s
  | n + 1, s =>
    match s.toks.get? s.pos with
    | some t => if t.kind.is_trivia then trivia_go n (bump s) else s
    | none => s

/-- `ParserImpl::trivia`: consume trivia tokens until a non-trivia one. -/
def trivia (s : PState) : PState :=
  if s.state = PMode.failure then s else trivia_go (s.toks.length - s.pos) s

/-- `ParserImpl::begin`. -/
def begin (kind : SyntaxKind) (s : PState) : PState :=
  let s := trivia s
  { s with out := s.out.begin kind }

/-- `ParserImpl::end`: closes the current node, marking it as an error node
when the parser is in failure state. -/
def close (s : PState) : PState :=
  if s.state = PMode.failure then { s with out := s.out.close_with_error }
  else { s with out := s.out.close }

/-- `ParserImpl::flush_errors`: clears the expected-token map and moves the
pending errors to the output stream. (The unexpected-token set is left
untouched by the code.) -/
def flush_errors (s : PState) : PState :=
  { s with
    expected := []
    pending := []
    out := s.pending.foldl (fun o e => o.push_error e.2 e.1) s.out }

/-- `ParserImpl::handle_errors`: synthesizes at most one pending error from
the drained `expected`/`unexpected` containers. Mirrors the source,
including its `unreachable!()` arm (modelled as a `fatal` outcome) and the
`unwrap`s on `split_last` and on the source slice. -/
def handle_errors (s : PState) : Except PErr PState :=
  if s.opt_depth > 0 then Except.ok s
  else
    let e? := max_expected s.expected
    let u? := max_unexpected s.unexpected
    let s := { s with expected := [], unexpected := [] }
    let pick : Except PErr (Span × Option (List String)) :=
      match e?, u? with
      | some (esp, ed), some u =>
        if esp.start < u.start then Except.ok (u, none)
        else Except.ok (esp, some ed)
      | none, some u => Except.ok (u, none)
      | some (esp, ed), none => Except.ok (esp, some ed)
      | none, none => Except.error (PErr.fatal "handle_errors: unreachable")
    match pick with
    | Except.error e => Except.error e
    | Except.ok (sp, ed?) =>
      if sp ∈ s.pending.map Prod.fst then Except.ok s
      else
        match source_text s.src sp with
        | none => Except.error (PErr.fatal "handle_errors: source slice unwrap")
        | some actual =>
          match ed? with
          | none =>
            Except.ok { s with pending := s.pending ++ [(sp, "unexpected `" ++ actual ++ "`")] }
          | some ds =>
            match split_last ds with
            | none => Except.error (PErr.fatal "handle_errors: split_last unwrap")
            | some (init, last) =>
              let msg :=
                if init.isEmpty then
                  "expecting " ++ last ++ ", found `" ++ actual ++ "`"
                else
                  "expecting " ++ String.intercalate ", " init ++ " or " ++ last ++
                    ", found `" ++ actual ++ "`"
              Except.ok { s with pending := s.pending ++ [(sp, msg)] }

/-- The error bookkeeping of `ParserImpl::expect_d` when the next non-trivia
token is `tok`: the `match (self.not_depth, token)` of the source, returning
the matching set member (if any) and the updated state. -/
def expect_record (ts : TokenSet) (description : Option String) (tok : Token) (s : PState) :
    Except PErr (Option SyntaxKind × PState) :=
  let sp := tok.span
  let t := ts_contains ts tok
  match s.not_depth, t with
  | _ + 1, some _ => do
    let s := { s with unexpected := uset_insert s.unexpected sp }
    let s ← handle_errors s
    Except.ok (t, s)
  | 0, none => do
    let ds :=
      match description with
      | some d => [d]
      | none => ts.map SyntaxKind.description
    let s := { s with expected := emap_extend s.expected sp ds }
    let s ← handle_errors s
    Except.ok (t, s)
  | _, _ => Except.ok (t, s)

/-- The consuming tail of `ParserImpl::expect_d` once the expected token was
found: consume leading trivia, consume the token (the source `unwrap`s it),
and flush errors when outside optional branches. -/
def expect_consume (k : SyntaxKind) (s : PState) : Except PErr PState :=
  let s := trivia s
  match s.toks.get? s.pos with
  | none => Except.error (PErr.fatal "expect: next_token unwrap")
  | some tok2 =>
    let s := { s with pos := s.pos + 1, out := s.out.push_token k tok2.span }
    if s.opt_depth = 0 then Except.ok (flush_errors s) else Except.ok s

/-- `ParserImpl::expect_d`: checks that the next non-trivia token is in the
set, with all the error bookkeeping of the source (including the behaviour
inside `not`, the `assert!` on empty sets, and the `unwrap` on
`next_token`). -/
def expect_d (ts : TokenSet) (description : Option String) : M := fun s =>
  if ts.isEmpty then Except.error (PErr.fatal "expect: empty token set")
  else if s.state = PMode.failure then Except.ok s
  else do
    let (found, s) ←
      (match peek_non_ws s with
      | none => Except.ok ((none : Option SyntaxKind), s)
      | some tok => expect_record ts description tok s)
    match found with
    | some k => expect_consume k s
    | none => Except.ok { s with state := PMode.failure }

/-- `ParserImpl::expect`. -/
def expect (ts : TokenSet) : M := expect_d ts none

/-- The scan loop inside `ParserImpl::sync`: consume tokens (under an ERROR
node) until end of input or a token in the recovery set. -/
def sync_go (ts : TokenSet) : Nat → PState → PState
  | 0, s => s
  | n + 1, s =>
    match peek s with
    | none => s
    | some t => if (ts_contains ts t).isSome then s else sync_go ts n (bump s)

/-- `ParserImpl::sync`. -/
def sync (ts : TokenSet) : M := fun s =>
  let s := trivia s
  match peek s with
  | none => Except.ok s
  | some tok =>
    if (ts_contains ts tok).isSome then Except.ok s
    else do
      let s :=
        { s with expected := emap_extend s.expected tok.span (ts.map SyntaxKind.description) }
      let s ← if s.pending.isEmpty then handle_errors s else Except.ok (flush_errors s)
      let s := { s with out := s.out.begin ERROR }
      let s := sync_go ts (s.toks.length - s.pos) s
      Except.ok { s with out := s.out.close }

/-- `ParserImpl::recover_and_sync`. -/
def recover_and_sync (ts : TokenSet) : M := fun s => sync ts (recover s)

/-- `ParserImpl::opt`: run `p`; on failure recover and roll back both
streams. -/
def opt (p : M) : M := fun s =>
  if s.state = PMode.failure then Except.ok s
  else do
    let b := bookmark s
    let s := trivia s
    let s := { s with opt_depth := s.opt_depth + 1 }
    let s ← p s
    let s := { s with opt_depth := s.opt_depth - 1 }
    if s.state = PMode.failure then Except.ok (restore_bookmark (recover s) b)
    else Except.ok s

/-- `ParserImpl::not`: run `p`, invert the outcome, always roll back. -/
def not (p : M) : M := fun s =>
  if s.state = PMode.failure then Except.ok s
  else do
    let b := bookmark s
    let s := trivia s
    let s := { s with not_depth := s.not_depth + 1 }
    let s ← p s
    let s := { s with not_depth := s.not_depth - 1 }
    let s :=
      { s with
        state :=
          match s.state with
          | PMode.ok => PMode.failure
          | PMode.failure => PMode.ok }
    Except.ok (restore_bookmark s b)

/-- `ParserImpl::opt_expect`. -/
def opt_expect (ts : TokenSet) : M := opt (expect ts)

/-- `ParserImpl::if_next`: peek-only dispatch; runs `p` only when the next
non-trivia token is in the set; otherwise records the set's descriptions. -/
def if_next (ts : TokenSet) (p : M) : M := fun s =>
  if s.state = PMode.failure then Except.ok s
  else
    match peek_non_ws s with
    | none => Except.ok s
    | some tok =>
      if (ts_contains ts tok).isSome then p (trivia s)
      else
        Except.ok
          { s with expected := emap_extend s.expected tok.span (ts.map SyntaxKind.description) }

/-- `ParserImpl::then`: mandatory sequencing, consuming leading trivia. -/
def then' (p : M) : M := fun s =>
  if s.state = PMode.failure then Except.ok s else p (trivia s)

/-- `ParserImpl::cond`: like `if_next` but also consumes the matching
token. -/
def cond (ts : TokenSet) (p : M) : M :=
  if_next ts (fun s => do
    let s ← expect ts s
    then' p s)

/-- The trailing Kleene loop of `ParserImpl::n_or_more` (each iteration under
a bookmark and with `opt_depth` incremented). `fuel` bounds iterations;
in the Rust code the loop is unbounded. -/
def n_or_more_go (p : M) : Nat → M
  | 0, _ => Except.error PErr.nofuel
  | fuel + 1, s => do
    let b := bookmark s
    let s := trivia s
    let s := { s with opt_depth := s.opt_depth + 1 }
    let s ← p s
    let s := { s with opt_depth := s.opt_depth - 1 }
    if s.state = PMode.failure then Except.ok (restore_bookmark (recover s) b)
    else n_or_more_go p fuel s

/-- The first `n` mandatory iterations of `ParserImpl::n_or_more`. -/
def n_or_more_req (p : M) : Nat → M
  | 0, s => Except.ok s
  | k + 1, s => do
    let s ← p (trivia s)
    if s.state = PMode.failure then Except.ok s
    else n_or_more_req p k s

/-- `ParserImpl::n_or_more`. -/
def n_or_more (fuel : Nat) (n : Nat) (p : M) : M := fun s =>
  if s.state = PMode.failure then Except.ok s
  else do
    let s ← n_or_more_req p n s
    if s.state = PMode.failure then Except.ok s
    else n_or_more_go p fuel s

/-- `ParserImpl::zero_or_more`. -/
def zero_or_more (fuel : Nat) (p : M) : M := n_or_more fuel 0 p

/-- `ParserImpl::one_or_more`. -/
def one_or_more (fuel : Nat) (p : M) : M := n_or_more fuel 1 p

/-- `ParserImpl::cached`: the packrat failure cache. -/
def cached (kind : SyntaxKind) (p : M) : M := fun s =>
  let start_index := s.pos
  if (start_index, kind) ∈ s.cache then Except.ok { s with state := PMode.failure }
  else do
    let s ← p s
    if s.state = PMode.failure then
      Except.ok { s with cache := s.cache ++ [(start_index, kind)] }
    else Except.ok s

/-- One branch of an alternation (`Alt::alt`). -/
def alt_step (b : Bookmark) (p : M) (acc : PState × Bool) : Except PErr (PState × Bool) :=
  let (s, matched) := acc
  if s.state = PMode.failure then Except.ok (s, matched)
  else if matched then Except.ok (s, matched)
  else do
    let s := trivia s
    let s := { s with opt_depth := s.opt_depth + 1 }
    let s ← p s
    let s := { s with opt_depth := s.opt_depth - 1 }
    match s.state with
    | PMode.ok => Except.ok (s, true)
    | PMode.failure => Except.ok (restore_bookmark (recover s) b, false)

/-- `begin_alt … alt … alt … end_alt`: try the branches in order; first
success wins; if none matched, fail and synthesize errors. -/
def alts (ps : List M) : M := fun s => do
  let b := bookmark s
  let (s, matched) ← ps.foldlM (fun acc p => alt_step b p acc) (s, false)
  if matched then Except.ok { s with state := PMode.ok }
  else handle_errors { s with state := PMode.failure }

/-- `ParserImpl::enter_hex_pattern_mode`. Modelled from the spec: the mode
switch only tells the missing tokenizer how to lex the following bytes, so
over an already-lexed token list it is a no-op. -/
def enter_hex_pattern_mode (s : PState) : PState := s

/-- `ParserImpl::enter_hex_jump_mode`. Modelled from the spec, as above. -/
def enter_hex_jump_mode (s : PState) : PState := s

mutual

/-- `ParserImpl::top_level_item`: `TOP_LEVEL_ITEM ::= (IMPORT_STMT | RULE_DECL)`. -/
def top_level_item : Nat → M
  | 0, _ => Except.error PErr.nofuel
  | n + 1, s =>
    match peek s with
    | none => Except.ok { s with state := PMode.failure }
    | some tok =>
      match tok.kind with
      | IMPORT_KW => import_stmt n s
      | GLOBAL_KW => rule_decl n s
      | PRIVATE_KW => rule_decl n s
      | RULE_KW => rule_decl n s
      | _ =>
        let s :=
          { s with
            out := s.out.push_error
              ("expecting import statement or rule definition, found " ++ tok.kind.description)
              tok.span }
        let s := { s with out := s.out.begin ERROR }
        let s := bump s
        let s := { s with out := s.out.close }
        Except.ok { s with state := PMode.failure }

/-- `IMPORT_STMT ::= import STRING_LIT`. -/
def import_stmt : Nat → M
  | 0, _ => Except.error PErr.nofuel
  | _ + 1, s => do
    let s := begin IMPORT_STMT s
    let s ← expect [IMPORT_KW] s
    let s ← expect [STRING_LIT] s
    Except.ok (close s)

/-- `RULE_DECL ::= RULE_MODS? rule IDENT RULE_TAGS? { META_BLK? PATTERNS_BLK? CONDITION_BLK }`. -/
def rule_decl : Nat → M
  | 0, _ => Except.error PErr.nofuel
  | n + 1, s => do
    let s := begin RULE_DECL s
    let s ← opt (rule_mods n) s
    let s ← expect [RULE_KW] s
    let s ← expect [IDENT] s
    let s ← if_next [COLON] (rule_tags n) s
    let s ← recover_and_sync [L_BRACE] s
    let s ← expect [L_BRACE] s
    let s ← recover_and_sync [META_KW, STRINGS_KW, CONDITION_KW] s
    let s ← if_next [META_KW] (meta_blk n) s
    let s ← recover_and_sync [STRINGS_KW, CONDITION_KW] s
    let s ← if_next [STRINGS_KW] (patterns_blk n) s
    let s ← recover_and_sync [CONDITION_KW] s
    let s ← condition_blk n s
    let s ← recover_and_sync [R_BRACE] s
    let s ← expect [R_BRACE] s
    Except.ok (close s)

/-- `RULE_MODS ::= (private global? | global private?)`. -/
def rule_mods : Nat → M
  | 0, _ => Except.error PErr.nofuel
  | _ + 1, s => do
    let s := begin RULE_MODS s
    let s ← alts
      [fun s => do
        let s ← expect [PRIVATE_KW] s
        opt_expect [GLOBAL_KW] s,
       fun s => do
        let s ← expect [GLOBAL_KW] s
        opt_expect [PRIVATE_KW] s] s
    Except.ok (close s)

/-- `RULE_TAGS ::= : IDENT+`. -/
def rule_tags : Nat → M
  | 0, _ => Except.error PErr.nofuel
  | n + 1, s => do
    let s := begin RULE_TAGS s
    let s ← expect [COLON] s
    let s ← one_or_more n (expect [IDENT]) s
    Except.ok (close s)

/-- `META_BLK ::= meta : META_DEF+`. -/
def meta_blk : Nat → M
  | 0, _ => Except.error PErr.nofuel
  | n + 1, s => do
    let s := begin META_BLK s
    let s ← expect [META_KW] s
    let s ← expect [COLON] s
    let s ← one_or_more n (meta_def n) s
    Except.ok (close s)

/-- `META_DEF ::= IDENT = (true | false | INTEGER_LIT | FLOAT_LIT | STRING_LIT)`. -/
def meta_def : Nat → M
  | 0, _ => Except.error PErr.nofuel
  | _ + 1, s => do
    let s := begin META_DEF s
    let s ← expect [IDENT] s
    let s ← expect [EQUAL] s
    let s ← alts
      [fun s => do
        let s ← opt_expect [MINUS] s
        expect [INTEGER_LIT, FLOAT_LIT] s,
       expect [STRING_LIT, TRUE_KW, FALSE_KW]] s
    Except.ok (close s)

/-- `PATTERNS_BLK ::= strings : PATTERN_DEF+`. -/
def patterns_blk : Nat → M
  | 0, _ => Except.error PErr.nofuel
  | n + 1, s => do
    let s := begin PATTERNS_BLK s
    let s ← expect [STRINGS_KW] s
    let s ← expect [COLON] s
    let s ← one_or_more n (pattern_def n) s
    Except.ok (close s)

/-- `PATTERN_DEF ::= PATTERN_IDENT = (STRING_LIT | REGEXP | HEX_PATTERN)`. -/
def pattern_def : Nat → M
  | 0, _ => Except.error PErr.nofuel
  | n + 1, s => do
    let s := begin PATTERN_DEF s
    let s ← expect [PATTERN_IDENT] s
    let s ← expect [EQUAL] s
    let s ← alts
      [expect [STRING_LIT],
       expect [REGEXP],
       hex_pattern n] s
    let s ← opt (pattern_mods n) s
    Except.ok (close s)

/-- `PATTERN_MODS ::= PATTERN_MOD+`. -/
def pattern_mods : Nat → M
  | 0, _ => Except.error PErr.nofuel
  | n + 1, s => do
    let s := begin PATTERN_MODS s
    let s ← one_or_more n (pattern_mod n) s
    Except.ok (close s)

/-- `PATTERN_MOD`: pattern modifiers, some with arguments. -/
def pattern_mod : Nat → M
  | 0, _ => Except.error PErr.nofuel
  | _ + 1, s => do
    let s := begin PATTERN_MOD s
    let s ← alts
      [expect_d [ASCII_KW, WIDE_KW, NOCASE_KW, PRIVATE_KW, FULLWORD_KW] (some "pattern modifier"),
       fun s => do
        let s ← expect_d [BASE64_KW, BASE64WIDE_KW] (some "pattern modifier") s
        opt (fun s => do
          let s ← expect [L_PAREN] s
          let s ← expect [STRING_LIT] s
          expect [R_PAREN] s) s,
       fun s => do
        let s ← expect_d [XOR_KW] (some "pattern modifier") s
        opt (fun s => do
          let s ← expect [L_PAREN] s
          let s ← expect [INTEGER_LIT] s
          let s ← opt (fun s => do
            let s ← expect [HYPHEN] s
            expect [INTEGER_LIT] s) s
          expect [R_PAREN] s) s] s
    Except.ok (close s)

/-- `CONDITION_BLK ::= condition : BOOLEAN_EXPR`. -/
def condition_blk : Nat → M
  | 0, _ => Except.error PErr.nofuel
  | n + 1, s => do
    let s := begin CONDITION_BLK s
    let s ← expect [CONDITION_KW] s
    let s ← expect [COLON] s
    let s ← then' (boolean_expr n) s
    Except.ok (close s)

/-- `HEX_PATTERN ::= { HEX_SUB_PATTERN }`. -/
def hex_pattern : Nat → M
  | 0, _ => Except.error PErr.nofuel
  | n + 1, s => do
    let s := begin HEX_PATTERN s
    let s ← expect [L_BRACE] s
    let s := enter_hex_pattern_mode s
    let s ← then' (hex_sub_pattern n) s
    let s ← expect [R_BRACE] s
    Except.ok (close s)

/-- `HEX_SUB_PATTERN ::= (HEX_BYTE | HEX_ALTERNATIVE) (HEX_JUMP* (HEX_BYTE | HEX_ALTERNATIVE))*`. -/
def hex_sub_pattern : Nat → M
  | 0, _ => Except.error PErr.nofuel
  | n + 1, s => do
    let s := begin HEX_SUB_PATTERN s
    let s ← alts
      [expect [HEX_BYTE],
       hex_alternative n] s
    let s ← zero_or_more n
      (fun s => do
        let s ← zero_or_more n (hex_jump n) s
        alts
          [expect [HEX_BYTE],
           hex_alternative n] s) s
    Except.ok (close s)

/-- `HEX_ALTERNATIVE ::= ( HEX_SUB_PATTERN (| HEX_SUB_PATTERN)* )`. -/
def hex_alternative : Nat → M
  | 0, _ => Except.error PErr.nofuel
  | n + 1, s => do
    let s := begin HEX_ALTERNATIVE s
    let s ← expect [L_PAREN] s
    let s ← then' (hex_sub_pattern n) s
    let s ← zero_or_more n
      (fun s => do
        let s ← expect [PIPE] s
        then' (hex_sub_pattern n) s) s
    let s ← expect [R_PAREN] s
    Except.ok (close s)

/-- `HEX_JUMP ::= [ (INTEGER_LIT? - INTEGER_LIT? | INTEGER_LIT) ]`. -/
def hex_jump : Nat → M
  | 0, _ => Except.error PErr.nofuel
  | _ + 1, s => do
    let s := begin HEX_JUMP s
    let s ← expect [L_BRACKET] s
    let s := enter_hex_jump_mode s
    let s ← alts
      [fun s => do
        let s ← opt_expect [INTEGER_LIT] s
        let s ← expect [HYPHEN] s
        opt_expect [INTEGER_LIT] s,
       expect [INTEGER_LIT]] s
    let s ← expect [R_BRACKET] s
    Except.ok (close s)

/-- `BOOLEAN_EXPR ::= BOOLEAN_TERM ((and | or) BOOLEAN_TERM)*`. -/
def boolean_expr : Nat → M
  | 0, _ => Except.error PErr.nofuel
  | n + 1, s => do
    let s := begin BOOLEAN_EXPR s
    let s ← boolean_term n s
    let s ← zero_or_more n
      (fun s => do
        let s ← expect [AND_KW, OR_KW] s
        then' (boolean_term n) s) s
    Except.ok (close s)

/-- `BOOLEAN_TERM`: the alternatives of a boolean term, in source order. -/
def boolean_term : Nat → M
  | 0, _ => Except.error PErr.nofuel
  | n + 1, s => do
    let s := begin BOOLEAN_TERM s
    let s ← alts
      [fun s => do
        let s ← expect [PATTERN_IDENT] s
        let s ← cond [AT_KW] (expr n) s
        cond [IN_KW] (range n) s,
       expect [TRUE_KW, FALSE_KW],
       fun s => do
        let s ← expect [NOT_KW, DEFINED_KW] s
        then' (boolean_term n) s,
       for_expr n,
       of_expr n,
       fun s => do
        let s ← expr n s
        zero_or_more n
          (fun s => do
            let s ← expect
              [EQ, NE, LE, LT, GE, GT, CONTAINS_KW, ICONTAINS_KW, STARTSWITH_KW,
               ISTARTSWITH_KW, ENDSWITH_KW, IENDSWITH_KW, MATCHES_KW] s
            then' (expr n) s) s,
       fun s => do
        let s ← expect [L_PAREN] s
        let s ← then' (boolean_expr n) s
        expect [R_PAREN] s] s
    Except.ok (close s)

/-- `EXPR ::= TERM ((arith | bitwise | .) TERM)*`. -/
def expr : Nat → M
  | 0, _ => Except.error PErr.nofuel
  | n + 1, s => do
    let s := begin EXPR s
    let s ← term n s
    let s ← zero_or_more n
      (fun s => do
        let s ← expect
          [ADD, SUB, MUL, DIV, MOD, SHL, SHR, BITWISE_AND, BITWISE_OR,
           BITWISE_XOR, BITWISE_NOT, DOT] s
        then' (term n) s) s
    Except.ok (close s)

/-- `TERM`: a primary expression, optionally indexed or called. -/
def term : Nat → M
  | 0, _ => Except.error PErr.nofuel
  | n + 1, s => do
    let s := begin TERM s
    let s ← then' (primary_expr n) s
    let s ← cond [L_BRACKET]
      (fun s => do
        let s ← expr n s
        expect [R_BRACKET] s) s
    let s ← cond [L_PAREN]
      (fun s => do
        let s ← opt (boolean_expr n) s
        let s ← zero_or_more n
          (fun s => do
            let s ← expect [COMMA] s
            then' (boolean_expr n) s) s
        expect [R_PAREN] s) s
    Except.ok (close s)

/-- `RANGE ::= ( EXPR . . EXPR )`. -/
def range : Nat → M
  | 0, _ => Except.error PErr.nofuel
  | n + 1, s => do
    let s := begin RANGE s
    let s ← expect [L_PAREN] s
    let s ← then' (expr n) s
    let s ← expect [DOT] s
    let s ← expect [DOT] s
    let s ← then' (expr n) s
    let s ← expect [R_PAREN] s
    Except.ok (close s)

/-- `PRIMARY_EXPR`, memoized through the packrat failure cache. -/
def primary_expr : Nat → M
  | 0, _ => Except.error PErr.nofuel
  | n + 1, s =>
    cached PRIMARY_EXPR
      (fun s => do
        let s := begin PRIMARY_EXPR s
        let s ← alts
          [expect_d [FLOAT_LIT, INTEGER_LIT, STRING_LIT, REGEXP, FILESIZE_KW, ENTRYPOINT_KW]
            (some "expression"),
           fun s => do
            let s ← expect_d [PATTERN_COUNT] (some "expression") s
            opt (fun s => do
              let s ← expect [IN_KW] s
              then' (range n) s) s,
           fun s => do
            let s ← expect_d [PATTERN_OFFSET, PATTERN_LENGTH] (some "expression") s
            opt (fun s => do
              let s ← expect [L_BRACKET] s
              let s ← then' (expr n) s
              expect [R_BRACKET] s) s,
           fun s => do
            let s ← expect_d [MINUS] (some "expression") s
            then' (term n) s,
           fun s => do
            let s ← expect_d [BITWISE_NOT] (some "expression") s
            then' (term n) s,
           fun s => do
            let s ← expect_d [L_PAREN] (some "expression") s
            let s ← then' (expr n) s
            expect [R_PAREN] s,
           fun s => do
            let s ← expect_d [IDENT] (some "expression") s
            zero_or_more n
              (fun s => do
                let s ← expect [DOT] s
                expect [IDENT] s) s] s
        Except.ok (close s)) s

/-- `FOR_EXPR`. -/
def for_expr : Nat → M
  | 0, _ => Except.error PErr.nofuel
  | n + 1, s => do
    let s := begin FOR_EXPR s
    let s ← expect [FOR_KW] s
    let s ← then' (quantifier n) s
    let s ← alts
      [fun s => do
        let s ← expect [OF_KW] s
        alts
          [expect [THEM_KW],
           pattern_ident_tuple n] s,
       fun s => do
        let s ← expect [IDENT] s
        let s ← zero_or_more n
          (fun s => do
            let s ← expect [COMMA] s
            expect [IDENT] s) s
        let s ← expect [IN_KW] s
        then' (iterable n) s] s
    let s ← expect [COLON] s
    let s ← expect [L_PAREN] s
    let s ← then' (boolean_expr n) s
    let s ← expect [R_PAREN] s
    Except.ok (close s)

/-- `OF_EXPR`. -/
def of_expr : Nat → M
  | 0, _ => Except.error PErr.nofuel
  | n + 1, s => do
    let s := begin OF_EXPR s
    let s ← then' (quantifier n) s
    let s ← expect [OF_KW] s
    let s ← alts
      [fun s => do
        let s ← alts
          [expect [THEM_KW],
           pattern_ident_tuple n] s
        let s ← cond [AT_KW] (expr n) s
        cond [IN_KW] (range n) s,
       fun s => do
        let s ← boolean_expr_tuple n s
        Parser.not (expect [AT_KW, IN_KW]) s] s
    Except.ok (close s)

/-- `QUANTIFIER`. -/
def quantifier : Nat → M
  | 0, _ => Except.error PErr.nofuel
  | n + 1, s => do
    let s := begin QUANTIFIER s
    let s ← alts
      [expect [ALL_KW, NONE_KW, ANY_KW],
       fun s => do
        let s ← primary_expr n s
        expect [PERCENT] s,
       fun s => do
        let s ← expr n s
        Parser.not (expect [PERCENT]) s] s
    Except.ok (close s)

/-- `ITERABLE ::= (RANGE | EXPR_TUPLE | EXPR)`. -/
def iterable : Nat → M
  | 0, _ => Except.error PErr.nofuel
  | n + 1, s => do
    let s := begin ITERABLE s
    let s ← alts
      [range n,
       expr_tuple n,
       expr n] s
    Except.ok (close s)

/-- `BOOLEAN_EXPR_TUPLE ::= ( BOOLEAN_EXPR (, BOOLEAN_EXPR)* )`. -/
def boolean_expr_tuple : Nat → M
  | 0, _ => Except.error PErr.nofuel
  | n + 1, s => do
    let s := begin BOOLEAN_EXPR_TUPLE s
    let s ← expect [L_PAREN] s
    let s ← then' (boolean_expr n) s
    let s ← zero_or_more n
      (fun s => do
        let s ← expect [COMMA] s
        then' (boolean_expr n) s) s
    let s ← expect [R_PAREN] s
    Except.ok (close s)

/-- `EXPR_TUPLE ::= ( EXPR (, EXPR)* )`. -/
def expr_tuple : Nat → M
  | 0, _ => Except.error PErr.nofuel
  | n + 1, s => do
    let s := begin EXPR_TUPLE s
    let s ← expect [L_PAREN] s
    let s ← then' (expr n) s
    let s ← zero_or_more n
      (fun s => do
        let s ← expect [COMMA] s
        then' (expr n) s) s
    let s ← expect [R_PAREN] s
    Except.ok (close s)

/-- `PATTERN_IDENT_TUPLE ::= ( PATTERN_IDENT *? (, PATTERN_IDENT *?)* )`. -/
def pattern_ident_tuple : Nat → M
  | 0, _ => Except.error PErr.nofuel
  | n + 1, s => do
    let s := begin PATTERN_IDENT_TUPLE s
    let s ← expect [L_PAREN] s
    let s ← expect [PATTERN_IDENT] s
    let s ← opt_expect [ASTERISK] s
    let s ← zero_or_more n
      (fun s => do
        let s ← expect [COMMA] s
        let s ← expect [PATTERN_IDENT] s
        opt_expect [ASTERISK] s) s
    let s ← expect [R_PAREN] s
    Except.ok (close s)

end

/-- One driver iteration of `ParserImpl::next` when the output buffer is
empty and tokens remain: consume trivia, parse one top-level item, flush
errors, clear the packrat cache and reset the state to OK. -/
def item_step (gfuel : Nat) : M := fun s => do
  let s := trivia s
  let s ← top_level_item gfuel s
  let s := flush_errors s
  Except.ok { s with cache := [], state := PMode.ok }

/-- The driver loop of the `ParserImpl` iterator: while tokens remain, parse
one top-level item per round and emit the buffered events; then emit
`End(SOURCE_FILE)`. -/
def events_loop (gfuel : Nat) : Nat → PState → Except PErr (List Event)
  | 0, _ => Except.error PErr.nofuel
  | d + 1, s =>
    if s.pos < s.toks.length then do
      let t ← item_step gfuel s
      let rest ← events_loop gfuel d { t with out := SyntaxStream.empty }
      Except.ok (t.out.events ++ rest)
    else Except.ok [Event.close SOURCE_FILE]

/-- The initial parser state for a source and its token list. -/
def init_state (src : List Char) (toks : List Token) : PState :=
  { src := src, toks := toks, pos := 0, out := SyntaxStream.empty,
    state := PMode.ok, opt_depth := 0, not_depth := 0,
    expected := [], unexpected := [], pending := [], cache := [] }

/-- The full event sequence of the parser: `Begin(SOURCE_FILE)`, the events
of each top-level item in order, then `End(SOURCE_FILE)`. -/
def parse_events (gfuel dfuel : Nat) (src : List Char) (toks : List Token) :
    Except PErr (List Event) :=
  match events_loop gfuel dfuel (init_state src toks) with
  | Except.ok evs => Except.ok (Event.begin SOURCE_FILE :: evs)
  | Except.error e => Except.error e

end Parser

/-- Is this event a `WHITESPACE` token event? (The filter applied by
`Events::next` when whitespaces are disabled.) -/
def is_ws_event : Event → Bool
  | Event.token WHITESPACE _ => true
  | _ => false

/-- The public `Parser` wrapper: `ParserImpl` plus the `whitespaces` flag. -/
structure ParserApi where
  src : List Char
  toks : List Token
  whitespaces : Bool
deriving DecidableEq, Repr

/-- `Parser::new`: the default value of `whitespaces` is `true`. -/
def ParserApi.new (src : List Char) (toks : List Token) : ParserApi :=
  { src := src, toks := toks, whitespaces := true }

/-- `Parser::whitespaces`: enables or disables whitespaces in the output. -/
def ParserApi.with_whitespaces (p : ParserApi) (yes : Bool) : ParserApi :=
  { p with whitespaces := yes }

/-- `Parser::events` / the `Events` iterator: the underlying event sequence,
with `WHITESPACE` token events dropped when `whitespaces` is false. -/
def ParserApi.events (p : ParserApi) (gfuel dfuel : Nat) : Except PErr (List Event) :=
  match Parser.parse_events gfuel dfuel p.src p.toks with
  | Except.ok evs =>
    Except.ok (if p.whitespaces then evs else evs.filter (fun e => ! is_ws_event e))
  | Except.error e => Except.error e

/-- The spans of all `Token` events of an event sequence, in order. -/
def tok_spans (evs : List Event) : List Span :=
  evs.filterMap (fun e =>
    match e with
    | Event.token _ sp => some sp
    | _ => none)

/-- The source bytes covered by a span. -/
def span_text (src : List Char) (sp : Span) : List Char :=
  (src.drop sp.start).take (sp.stop - sp.start)

/-- The spans of the tokens with indices in `[i, j)`. -/
def spans_between (toks : List Token) (i j : Nat) : List Span :=
  ((toks.drop i).take (j - i)).map Token.span

/-- Modelled from the spec: the tokenizer's losslessness contract. The token
spans tile the source contiguously, starting at offset `i` and ending at the
source's end; every byte of the source belongs to exactly one token
(trivia, error tokens and all). -/
def tiles (src : List Char) : Nat → List Token → Prop
  | i, [] => i = src.length
  | i, t :: ts =>
    t.span.start = i ∧ i ≤ t.span.stop ∧ t.span.stop ≤ src.length ∧
      tiles src t.span.stop ts

/-- The relation between a parser state and any state reachable from it by a
parser operation: token list and source unchanged, cursor moved only
forward and staying in bounds, prior output preserved as a prefix, and the
token events appended beyond it being exactly the tokens consumed, in order,
with their spans. -/
structure Extends (s t : PState) : Prop where
  toks_eq : t.toks = s.toks
  src_eq : t.src = s.src
  pos_le : s.pos ≤ t.pos
  pos_bound : t.pos ≤ s.toks.length
  out_pre : s.out.events <+: t.out.events
  new_spans :
    tok_spans (t.out.events.drop s.out.events.length) = spans_between s.toks s.pos t.pos

/-- A parser operation is sound when every successful run extends its input
state in the sense of `Extends`. -/
def Sound (f : M) : Prop :=
  ∀ s t, s.pos ≤ s.toks.length → f s = Except.ok t → Extends s t

/-- The error-message format of the parser for an expectation failure, as the
amended claim states it: the collected descriptions comma-separated with a
plain " or " (and no comma) before the last one, then the offending source
text between backticks. -/
def expected_msg (descs : List String) (actual : String) : String :=
  match descs.getLast? with
  | none => ""
  | some last =>
    if descs.dropLast.isEmpty then "expecting " ++ last ++ ", found `" ++ actual ++ "`"
    else
      "expecting " ++ String.intercalate ", " descs.dropLast ++ " or " ++ last ++
        ", found `" ++ actual ++ "`"

/-- The error-message format of the original claim, which puts a comma
before the final "or" ("expecting A, B, or C, found `X`"). -/
def claim_expected_msg (descs : List String) (actual : String) : String :=
  match descs.getLast? with
  | none => ""
  | some last =>
    if descs.dropLast.isEmpty then "expecting " ++ last ++ ", found `" ++ actual ++ "`"
    else
      "expecting " ++ String.intercalate ", " descs.dropLast ++ ", or " ++ last ++
        ", found `" ++ actual ++ "`"

/-- The parser's message for an unexpected token. -/
def unexpected_msg (actual : String) : String := "unexpected `" ++ actual ++ "`"

/-- Shorthand for building concrete tokens. -/
def mk_tok (k : SyntaxKind) (a b : Nat) : Token := ⟨k, ⟨a, b⟩⟩

/-- The token list of the source `rule r{meta:a=` (a rule truncated right
after the `=` of its first metadata definition). -/
def truncated_toks : List Token :=
  [mk_tok RULE_KW 0 4, mk_tok WHITESPACE 4 5, mk_tok IDENT 5 6,
   mk_tok L_BRACE 6 7, mk_tok META_KW 7 11, mk_tok COLON 11 12,
   mk_tok IDENT 12 13, mk_tok EQUAL 13 14]

/-- The source `rule r{meta:a=`. -/
def truncated_src : List Char := "rule r\x7bmeta:a=".toList

/-- The token list of the source `import "x"`. -/
def import_toks : List Token :=
  [mk_tok IMPORT_KW 0 6, mk_tok WHITESPACE 6 7, mk_tok STRING_LIT 7 10]

/-- The source `import "x"`. -/
def import_src : List Char := "import \"x\"".toList

/-- The event sequence the parser produces for the source `import "x"`. -/
def import_events : List Event :=
  [Event.begin SOURCE_FILE, Event.begin IMPORT_STMT,
   Event.token IMPORT_KW ⟨0, 6⟩, Event.token WHITESPACE ⟨6, 7⟩,
   Event.token STRING_LIT ⟨7, 10⟩, Event.close IMPORT_STMT,
   Event.close SOURCE_FILE]

/-- A parser state with three descriptions recorded for the span `[0, 1)` of
the source `x`, as left by three failed alternatives at the same position. -/
def c3_state : PState :=
  { Parser.init_state ['x'] [mk_tok IDENT 0 1] with
    expected := [(⟨0, 1⟩, ["A", "B", "C"])] }

/-- A parser state in failure with a pending error and the next token in the
upcoming recovery set, as reached after a failed `meta` section with the
`condition` keyword next (here abstracted to `}`). -/
def c4_sync_state : PState :=
  { Parser.init_state ['}'] [mk_tok R_BRACE 0 1] with
    state := PMode.failure
    pending := [(⟨0, 1⟩, "expecting identifier, found `\x7d`")] }

/-- A parser state with a recorded unexpected-token span, as left by an
`expect` inside `not` under an optional branch. -/
def c4_flush_state : PState :=
  { Parser.init_state ['%'] [mk_tok PERCENT 0 1] with
    unexpected := [⟨0, 1⟩] }

/-- A parser state whose next token is the `true` keyword. -/
def c5_state : PState :=
  Parser.init_state "true".toList [mk_tok TRUE_KW 0 4]

namespace Math

/-- The constant `INCIRC` of `monte_carlo_pi`, written in the source as the
floating-point literal `281474943156225.0`. The integer 281474943156225 is
below `2^53`, so the `f64` literal denotes it exactly; the claim is about
its value as an integer. -/
def INCIRC : ℤ := 281474943156225

/-- One step of the byte-distribution accumulation loop shared by `entropy`,
`mean` and `deviation`: `distribution[byte as usize] += 1`, with the index
check made explicit (`.error` models the Rust index panic; `data` is `&[u8]`,
so the index is always below the table length 256). -/
def bump_slot (d : List Nat) (i : Nat) : Except String (List Nat) :=
  if h : i < d.length then Except.ok (d.set i (d.get ⟨i, h⟩ + 1))
  else Except.error "index out of bounds"

/-- The 256-entry byte distribution (`let mut distribution = [0u64; 256];
for byte in data { distribution[*byte as usize] += 1; }`). -/
def distribution (data : List Nat) : Except String (List Nat) :=
  data.foldlM bump_slot (List.replicate 256 0)

/-- `math::entropy`. The `f64` arithmetic is modelled exactly over `ℚ`, with
`log2` an arbitrary parameter standing for `f64::log2` (its values do not
matter to any claim here); the control flow — the emptiness check, the
distribution indexing, and which slots contribute — is the code's. -/
def entropy (log2 : ℚ → ℚ) (data : List Nat) : Except String (Option ℚ) :=
  if data.isEmpty then Except.ok none
  else do
    let d ← distribution data
    let e := d.foldl
      (fun acc v =>
        if v ≠ 0 then acc - ((v : ℚ) / (data.length : ℚ)) * log2 ((v : ℚ) / (data.length : ℚ))
        else acc)
      0
    Except.ok (some e)

/-- `math::deviation`, with `f64` arithmetic modelled exactly over `ℚ`. -/
def deviation (data : List Nat) (mean : ℚ) : Except String (Option ℚ) :=
  if data.isEmpty then Except.ok none
  else do
    let d ← distribution data
    let sum := d.enum.foldl (fun acc iv => acc + |(iv.1 : ℚ) - mean| * (iv.2 : ℚ)) 0
    Except.ok (some (sum / (data.length : ℚ)))

/-- `math::mean`, with `f64` arithmetic modelled exactly over `ℚ`. -/
def mean (data : List Nat) : Except String (Option ℚ) :=
  if data.isEmpty then Except.ok none
  else do
    let d ← distribution data
    let sum := d.enum.foldl (fun acc iv => acc + (iv.1 : ℚ) * (iv.2 : ℚ)) 0
    Except.ok (some (sum / (data.length : ℚ)))

end Math

namespace Linters

/-- `ast::Ident`: a name and its span. -/
structure Ident where
  name : String
  span : Span
deriving DecidableEq, Repr

/-- `ast::MetaValue`. The linter only reads the value's span; payloads are
kept where they are exactly representable (the float payload is not). -/
inductive MetaValue where
  | str (v : String) (span : Span)
  | integer (v : Int) (span : Span)
  | float (span : Span)
  | boolean (v : Bool) (span : Span)
deriving DecidableEq, Repr

/-- `MetaValue::span`. -/
def MetaValue.span : MetaValue → Span
  | MetaValue.str _ sp => sp
  | MetaValue.integer _ sp => sp
  | MetaValue.float sp => sp
  | MetaValue.boolean _ sp => sp

/-- `ast::Meta`: one metadata entry. -/
structure Meta where
  identifier : Ident
  value : MetaValue
deriving DecidableEq, Repr

/-- The part of `ast::Rule` the metadata linter reads. -/
structure Rule where
  identifier : Ident
  meta : Option (List Meta)
deriving DecidableEq, Repr

/-- A structured diagnostic: the stable kind tag, the primary span, the
metadata/rule identifier it concerns, and the message. -/
structure Diag where
  kind : String
  span : Span
  ident : String
  message : String
deriving DecidableEq, Repr

/-- `LinterResult`. -/
inductive LinterResult where
  | ok
  | warn (d : Diag)
  | err (d : Diag)
deriving DecidableEq, Repr

/-- The `Metadata` linter: identifier, optional validation predicate,
`required` and `error` flags, optional message and note. -/
structure Metadata where
  identifier : String
  predicate : Option (Meta → Bool)
  required : Bool
  error : Bool
  message : Option String
  note : Option String

/-- `linters::metadata(identifier)`: the builder's initial state. -/
def metadata (identifier : String) : Metadata :=
  ⟨identifier, none, false, false, none, none⟩

/-- `Metadata::required`. -/
def Metadata.set_required (m : Metadata) (yes : Bool) : Metadata :=
  { m with required := yes }

/-- `Metadata::error`. -/
def Metadata.set_error (m : Metadata) (yes : Bool) : Metadata :=
  { m with error := yes }

/-- `Metadata::validator`. -/
def Metadata.validator (m : Metadata) (p : Meta → Bool) (msg : String) : Metadata :=
  { m with predicate := some p, message := some msg }

/-- The `invalid_metadata` diagnostic built by `Metadata::check`, pointing
at the value span of the offending entry. -/
def invalid_metadata (m : Metadata) (meta : Meta) : Diag :=
  ⟨"invalid_metadata", meta.value.span, meta.identifier.name,
   m.message.getD "invalid metadata"⟩

/-- The `missing_metadata` diagnostic built by `Metadata::check`, pointing
at the rule identifier span. -/
def missing_metadata (m : Metadata) (rule : Rule) : Diag :=
  ⟨"missing_metadata", rule.identifier.span, m.identifier, m.note.getD ""⟩

/-- The iteration inside `Metadata::check` with the `found` flag. -/
def check_go (m : Metadata) (rule : Rule) : List Meta → Bool → LinterResult
  | [], found =>
    if m.required ∧ ¬ found then
      if m.error then LinterResult.err (missing_metadata m rule)
      else LinterResult.warn (missing_metadata m rule)
    else LinterResult.ok
  | meta :: rest, found =>
    if meta.identifier.name = m.identifier then
      match m.predicate with
      | some p =>
        if ¬ p meta then
          if m.error then LinterResult.err (invalid_metadata m meta)
          else LinterResult.warn (invalid_metadata m meta)
        else check_go m rule rest true
      | none => check_go m rule rest true
    else check_go m rule rest found

/-- `Metadata::check` (`impl LinterInternal for Metadata`). -/
def Metadata.check (m : Metadata) (rule : Rule) : LinterResult :=
  check_go m rule (rule.meta.getD []) false

/-- Whether a metadata entry is one the linter rejects: its identifier
matches and the validator predicate (when present) returns false. -/
def is_bad (m : Metadata) (meta : Meta) : Bool :=
  meta.identifier.name == m.identifier &&
    (match m.predicate with
     | some p => ! p meta
     | none => false)

/-- A concrete linter for the witness: `metadata("author").required(true)`. -/
def author_linter : Metadata := (metadata "author").set_required true

/-- A concrete rule without metadata for the witness. -/
def bare_rule : Rule := ⟨⟨"foo", ⟨5, 8⟩⟩, none⟩

end Linters

end YaraX

namespace YaraX

open SyntaxKind

/-- C8 counterexample: the claim asserts that the literal 281474943156225
does not equal `((256^3) - 1)^2` over the integers; in fact the two are
equal, so the claim as stated is false. -/
theorem c8_incirc_counterexample : ¬ (Math.INCIRC ≠ ((256 ^ 3 : ℤ) - 1) ^ 2) := by
  intro h
  exact h (by norm_num [Math.INCIRC])

/-- C8 (amended): the constant `INCIRC` used by `monte_carlo_pi`, written in
the source as the literal `281474943156225.0`, equals `((256^3) - 1)^2`
computed exactly over the integers; the literal is not off. -/
theorem c8_incirc_exact : Math.INCIRC = ((256 ^ 3 : ℤ) - 1) ^ 2 := by
  norm_num [Math.INCIRC]

/-- Accumulating the byte distribution never fails (indexes stay in bounds)
when every byte is below 256, and the table keeps its 256 entries. -/
theorem foldl_bump_slot_ok (data : List Nat) :
    ∀ d0 : List Nat, (∀ b ∈ data, b < 256) → d0.length = 256 →
      ∃ d, data.foldlM Math.bump_slot d0 = Except.ok d ∧ d.length = 256 := by
  induction data with
  | nil =>
    intro d0 _ hlen
    exact ⟨d0, rfl, hlen⟩
  | cons b bs ih =>
    intro d0 hb hlen
    have hblt : b < d0.length := by
      rw [hlen]; exact hb b (List.mem_cons_self b bs)
    have hstep : Math.bump_slot d0 b = Except.ok (d0.set b (d0.get ⟨b, hblt⟩ + 1)) := by
      simp [Math.bump_slot, hblt]
    have hlen' : (d0.set b (d0.get ⟨b, hblt⟩ + 1)).length = 256 := by
      simp [hlen]
    obtain ⟨d, hd, hdlen⟩ :=
      ih (d0.set b (d0.get ⟨b, hblt⟩ + 1))
        (fun x hx => hb x (List.mem_cons_of_mem b hx)) hlen'
    refine ⟨d, ?_, hdlen⟩
    rw [List.foldlM_cons, hstep]
    exact hd

/-- The distribution itself succeeds for byte data. -/
theorem distribution_ok (data : List Nat) (hb : ∀ b ∈ data, b < 256) :
    ∃ d, Math.distribution data = Except.ok d ∧ d.length = 256 :=
  foldl_bump_slot_ok data (List.replicate 256 0) hb (by rw [List.length_replicate])

/-- On a non-empty slice, `entropy` reaches the `Some` branch. -/
theorem entropy_cons (log2 : ℚ → ℚ) (b : Nat) (bs : List Nat) (d : List Nat)
    (hd : Math.distribution (b :: bs) = Except.ok d) :
    ∃ x, Math.entropy log2 (b :: bs) = Except.ok (some x) := by
  simp only [Math.entropy, hd]
  exact ⟨_, rfl⟩

/-- On a non-empty slice, `mean` reaches the `Some` branch. -/
theorem mean_cons (b : Nat) (bs : List Nat) (d : List Nat)
    (hd : Math.distribution (b :: bs) = Except.ok d) :
    ∃ x, Math.mean (b :: bs) = Except.ok (some x) := by
  simp only [Math.mean, hd]
  exact ⟨_, rfl⟩

/-- On a non-empty slice, `deviation` reaches the `Some` branch. -/
theorem deviation_cons (b : Nat) (bs : List Nat) (mv : ℚ) (d : List Nat)
    (hd : Math.distribution (b :: bs) = Except.ok d) :
    ∃ x, Math.deviation (b :: bs) mv = Except.ok (some x) := by
  simp only [Math.deviation, hd]
  exact ⟨_, rfl⟩

/-- C10: `entropy`, `mean` and `deviation` return `none` exactly on the
empty slice and `some` on every non-empty slice of bytes (for any `mean`
argument of `deviation` and any model of `log2`); building the 256-entry
byte distribution never indexes out of bounds (no error outcome). -/
theorem math_helpers_total (log2 : ℚ → ℚ) (data : List Nat) (mv : ℚ)
    (hb : ∀ b ∈ data, b < 256) :
    (∃ q, Math.entropy log2 data = Except.ok q ∧ (q = none ↔ data = [])) ∧
    (∃ q, Math.mean data = Except.ok q ∧ (q = none ↔ data = [])) ∧
    (∃ q, Math.deviation data mv = Except.ok q ∧ (q = none ↔ data = [])) := by
  rcases data with _ | ⟨b, bs⟩
  · exact ⟨⟨none, by simp [Math.entropy], by simp⟩,
      ⟨none, by simp [Math.mean], by simp⟩,
      ⟨none, by simp [Math.deviation], by simp⟩⟩
  · obtain ⟨d, hd, _⟩ := distribution_ok (b :: bs) hb
    obtain ⟨xe, he⟩ := entropy_cons log2 b bs d hd
    obtain ⟨xm, hm⟩ := mean_cons b bs d hd
    obtain ⟨xd, hdev⟩ := deviation_cons b bs mv d hd
    exact ⟨⟨some xe, he, by simp⟩, ⟨some xm, hm, by simp⟩, ⟨some xd, hdev, by simp⟩⟩

/-- C10 witness: the three helpers at the concrete byte slice `[65, 66]`
(with `log2` modelled as the zero function and `mean` argument `0`). -/
theorem math_helpers_total_witness :
    (∃ q, Math.entropy (fun _ => 0) [65, 66] = Except.ok q ∧
      (q = none ↔ ([65, 66] : List Nat) = [])) ∧
    (∃ q, Math.mean [65, 66] = Except.ok q ∧ (q = none ↔ ([65, 66] : List Nat) = [])) ∧
    (∃ q, Math.deviation [65, 66] 0 = Except.ok q ∧
      (q = none ↔ ([65, 66] : List Nat) = [])) :=
  math_helpers_total (fun _ => 0) [65, 66] 0 (by decide)

/-- If some entry fails the linter (matching identifier, failing predicate),
`check_go` reports `invalid_metadata` for the first such entry, whatever the
`found` flag. -/
theorem check_go_first_bad (m : Linters.Metadata) (rule : Linters.Rule) :
    ∀ (metas : List Linters.Meta) (found : Bool) (meta : Linters.Meta),
      metas.find? (Linters.is_bad m) = some meta →
      Linters.check_go m rule metas found =
        (if m.error then Linters.LinterResult.err (Linters.invalid_metadata m meta)
         else Linters.LinterResult.warn (Linters.invalid_metadata m meta)) := by
  intro metas
  induction metas with
  | nil => intro found meta h; simp [List.find?] at h
  | cons x rest ih =>
    intro found meta h
    rw [List.find?_cons] at h
    by_cases hbad : Linters.is_bad m x = true
    · simp only [hbad] at h
      cases h
      have hname : x.identifier.name = m.identifier := by
        have := (Bool.and_eq_true _ _).mp hbad |>.1
        exact beq_iff_eq.mp this
      obtain ⟨p, hp1, hp2⟩ : ∃ p, m.predicate = some p ∧ p x = false := by
        have h2 := (Bool.and_eq_true _ _).mp hbad |>.2
        cases hpred : m.predicate with
        | none => rw [hpred] at h2; simp at h2
        | some p =>
          rw [hpred] at h2
          simp only [Bool.not_eq_true'] at h2
          exact ⟨p, rfl, h2⟩
      simp [Linters.check_go, hname, hp1, hp2]
    · rw [Bool.not_eq_true] at hbad
      simp only [hbad] at h
      unfold Linters.check_go
      by_cases hname : x.identifier.name = m.identifier
      · rw [if_pos hname]
        cases hpred : m.predicate with
        | none => exact ih true meta h
        | some p =>
          have hpx : p x = true := by
            by_contra hc
            rw [Bool.not_eq_true] at hc
            have hb : Linters.is_bad m x = true := by
              unfold Linters.is_bad
              rw [hpred]
              simp [hname, hc]
            rw [hb] at hbad
            cases hbad
          simp only [hpx]
          simp
          exact ih true meta h
      · rw [if_neg hname]
        exact ih found meta h

/-- With no failing entry and no matching entry at all, `check_go` with the
`found` flag down ends in the `required` check. -/
theorem check_go_no_match (m : Linters.Metadata) (rule : Linters.Rule) :
    ∀ (metas : List Linters.Meta) (found : Bool),
      (∀ x ∈ metas, x.identifier.name ≠ m.identifier) →
      Linters.check_go m rule metas found = Linters.check_go m rule [] found := by
  intro metas
  induction metas with
  | nil => intro found _; rfl
  | cons x rest ih =>
    intro found hno
    have hx : x.identifier.name ≠ m.identifier := hno x (List.mem_cons_self x rest)
    unfold Linters.check_go
    rw [if_neg hx]
    exact ih found (fun y hy => hno y (List.mem_cons_of_mem x hy))

/-- With no failing entry, once the `found` flag is up the result is `Ok`. -/
theorem check_go_found (m : Linters.Metadata) (rule : Linters.Rule) :
    ∀ metas : List Linters.Meta,
      metas.find? (Linters.is_bad m) = none →
      Linters.check_go m rule metas true = Linters.LinterResult.ok := by
  intro metas
  induction metas with
  | nil => simp [Linters.check_go]
  | cons x rest ih =>
    intro h
    rw [List.find?_cons] at h
    by_cases hbad : Linters.is_bad m x = true
    · simp only [hbad] at h
      cases h
    · rw [Bool.not_eq_true] at hbad
      simp only [hbad] at h
      unfold Linters.check_go
      by_cases hname : x.identifier.name = m.identifier
      · rw [if_pos hname]
        cases hpred : m.predicate with
        | none => exact ih h
        | some p =>
          have hpx : p x = true := by
            by_contra hc
            rw [Bool.not_eq_true] at hc
            have hb : Linters.is_bad m x = true := by
              unfold Linters.is_bad
              rw [hpred]
              simp [hname, hc]
            rw [hb] at hbad
            cases hbad
          simp only [hpx]
          simp
          exact ih h
      · rw [if_neg hname]
        exact ih h

/-- With no failing entry but some matching entry, `check_go` returns `Ok`. -/
theorem check_go_some_match (m : Linters.Metadata) (rule : Linters.Rule) :
    ∀ (metas : List Linters.Meta) (found : Bool),
      metas.find? (Linters.is_bad m) = none →
      (∃ x ∈ metas, x.identifier.name = m.identifier) →
      Linters.check_go m rule metas found = Linters.LinterResult.ok := by
  intro metas
  induction metas with
  | nil => intro found _ h; simp at h
  | cons x rest ih =>
    intro found h hex
    rw [List.find?_cons] at h
    by_cases hbad : Linters.is_bad m x = true
    · simp only [hbad] at h
      cases h
    · rw [Bool.not_eq_true] at hbad
      simp only [hbad] at h
      unfold Linters.check_go
      by_cases hname : x.identifier.name = m.identifier
      · rw [if_pos hname]
        cases hpred : m.predicate with
        | none => exact check_go_found m rule rest h
        | some p =>
          have hpx : p x = true := by
            by_contra hc
            rw [Bool.not_eq_true] at hc
            have hb : Linters.is_bad m x = true := by
              unfold Linters.is_bad
              rw [hpred]
              simp [hname, hc]
            rw [hb] at hbad
            cases hbad
          simp only [hpx]
          simp
          exact check_go_found m rule rest h
      · rw [if_neg hname]
        obtain ⟨y, hy, hyname⟩ := hex
        rcases List.mem_cons.mp hy with rfl | hyrest
        · exact absurd hyname hname
        · exact ih found h ⟨y, hyrest, hyname⟩

/-- C9: `Metadata::check` returns an `invalid_metadata` diagnostic (error
iff the `error` flag is set) pointing at the value span of the first entry
whose identifier matches and whose validator rejects it; otherwise a
`missing_metadata` diagnostic at the rule identifier span exactly when
`required` is set and no entry with the identifier exists; otherwise `Ok`. -/
theorem metadata_check_spec (m : Linters.Metadata) (rule : Linters.Rule) :
    (∀ meta, (rule.meta.getD []).find? (Linters.is_bad m) = some meta →
      m.check rule =
        (if m.error then Linters.LinterResult.err (Linters.invalid_metadata m meta)
         else Linters.LinterResult.warn (Linters.invalid_metadata m meta)) ∧
      (Linters.invalid_metadata m meta).span = meta.value.span ∧
      (Linters.invalid_metadata m meta).kind = "invalid_metadata") ∧
    ((rule.meta.getD []).find? (Linters.is_bad m) = none →
      ((m.required = true ∧ ∀ x ∈ rule.meta.getD [], x.identifier.name ≠ m.identifier) →
        m.check rule =
          (if m.error then Linters.LinterResult.err (Linters.missing_metadata m rule)
           else Linters.LinterResult.warn (Linters.missing_metadata m rule)) ∧
        (Linters.missing_metadata m rule).span = rule.identifier.span ∧
        (Linters.missing_metadata m rule).kind = "missing_metadata") ∧
      ((m.required = false ∨ ∃ x ∈ rule.meta.getD [], x.identifier.name = m.identifier) →
        m.check rule = Linters.LinterResult.ok)) := by
  constructor
  · intro meta h
    exact ⟨check_go_first_bad m rule _ false meta h, rfl, rfl⟩
  · intro h
    constructor
    · intro ⟨hreq, hno⟩
      refine ⟨?_, rfl, rfl⟩
      unfold Linters.Metadata.check
      rw [check_go_no_match m rule _ false hno]
      simp [Linters.check_go, hreq]
    · intro hcase
      rcases hcase with hreq | hex
      · by_cases hmatch : ∃ x ∈ rule.meta.getD [], x.identifier.name = m.identifier
        · exact check_go_some_match m rule _ false h hmatch
        · push_neg at hmatch
          unfold Linters.Metadata.check
          rw [check_go_no_match m rule _ false hmatch]
          simp [Linters.check_go, hreq]
      · exact check_go_some_match m rule _ false h hex

/-- C9 witness: `metadata("author").required(true)` on a rule without
metadata yields the `missing_metadata` warning at the rule identifier. -/
theorem metadata_check_spec_witness :
    Linters.author_linter.check Linters.bare_rule =
      (if Linters.author_linter.error then
        Linters.LinterResult.err (Linters.missing_metadata Linters.author_linter Linters.bare_rule)
       else
        Linters.LinterResult.warn (Linters.missing_metadata Linters.author_linter Linters.bare_rule)) ∧
    (Linters.missing_metadata Linters.author_linter Linters.bare_rule).span =
      Linters.bare_rule.identifier.span ∧
    (Linters.missing_metadata Linters.author_linter Linters.bare_rule).kind =
      "missing_metadata" :=
  ((metadata_check_spec Linters.author_linter Linters.bare_rule).2 rfl).1
    ⟨rfl, by simp [Linters.bare_rule]⟩

set_option maxHeartbeats 1000000 in
/-- C2: iterating the parser's events over the source `rule r{meta:a=`
panics. After `a` and `=` are consumed (each `expect` success at
`opt_depth == 0` flushing the error maps), both alternatives of the
metadata value fail silently at end of input (an `expect` that sees no next
non-trivia token records nothing), so `end_alt` — reached at
`opt_depth == 0` because the first mandatory iteration of `one_or_more`
runs outside any optional branch — calls `handle_errors` with both error
containers empty and reaches its `_ => unreachable!()` arm. -/
theorem truncated_input_panics :
    Parser.parse_events 8 2 truncated_src truncated_toks =
      Except.error (PErr.fatal "handle_errors: unreachable") := by
  rfl

/-- C7: the event sequence with whitespaces disabled is exactly the event
sequence with whitespaces enabled with every `WHITESPACE` token event
removed (the underlying parse is shared, only the iterator filters), and
the default setting of the `whitespaces` flag is `true`. -/
theorem whitespace_toggle (src : List Char) (toks : List Token) (g d : Nat) :
    ((ParserApi.new src toks).with_whitespaces false).events g d =
      Except.map (fun evs => evs.filter (fun e => ! is_ws_event e))
        ((ParserApi.new src toks).events g d) ∧
    (ParserApi.new src toks).whitespaces = true := by
  constructor
  · unfold ParserApi.events
    cases h : Parser.parse_events g d src toks <;>
      simp [h, ParserApi.new, ParserApi.with_whitespaces, Except.map]
  · rfl

/-- `trivia_go` never touches the token list or the source, only moves the
cursor forward, and every token it steps over is trivia. -/
theorem trivia_go_spec :
    ∀ (n : Nat) (s : PState),
      (Parser.trivia_go n s).toks = s.toks ∧
      (Parser.trivia_go n s).src = s.src ∧
      s.pos ≤ (Parser.trivia_go n s).pos ∧
      (∀ i, s.pos ≤ i → i < (Parser.trivia_go n s).pos →
        ∃ t, s.toks.get? i = some t ∧ t.kind.is_trivia = true) := by
  intro n
  induction n with
  | zero =>
    intro s
    refine ⟨rfl, rfl, Nat.le_refl _, ?_⟩
    intro i hi hlt
    exact absurd (Nat.lt_of_le_of_lt hi hlt) (Nat.lt_irrefl _)
  | succ n ih =>
    intro s
    unfold Parser.trivia_go
    cases hp : s.toks.get? s.pos with
    | none =>
      refine ⟨rfl, rfl, Nat.le_refl _, ?_⟩
      intro i hi hlt
      exact absurd (Nat.lt_of_le_of_lt hi hlt) (Nat.lt_irrefl _)
    | some t =>
      dsimp only
      by_cases htr : t.kind.is_trivia = true
      · rw [if_pos htr]
        have hbump : Parser.bump s =
            { s with pos := s.pos + 1, out := s.out.push_token t.kind t.span } := by
          unfold Parser.bump
          rw [hp]
        have hb_toks : (Parser.bump s).toks = s.toks := by rw [hbump]
        have hb_src : (Parser.bump s).src = s.src := by rw [hbump]
        have hb_pos : (Parser.bump s).pos = s.pos + 1 := by rw [hbump]
        obtain ⟨h1, h2, h3, h4⟩ := ih (Parser.bump s)
        rw [hb_toks] at h1
        rw [hb_src] at h2
        rw [hb_pos] at h3
        rw [hb_toks, hb_pos] at h4
        refine ⟨h1, h2, Nat.le_trans (Nat.le_succ _) h3, ?_⟩
        intro i hi hlt
        rcases Nat.lt_or_ge i (s.pos + 1) with hcase | hcase
        · have : i = s.pos := Nat.le_antisymm (Nat.lt_succ_iff.mp hcase) hi
          subst this
          exact ⟨t, hp, htr⟩
        · exact h4 i hcase hlt
      · rw [if_neg htr]
        refine ⟨rfl, rfl, Nat.le_refl _, ?_⟩
        intro i hi hlt
        exact absurd (Nat.lt_of_le_of_lt hi hlt) (Nat.lt_irrefl _)

/-- C5 counterexample: with the next non-trivia token in the set (`true` in
`{TRUE_KW}`), `if_next` runs `p` but records nothing in the expected-token
map — refuting the claim that the set's descriptions are recorded whether
or not the next token is in the set. -/
theorem if_next_no_record :
    Parser.if_next [TRUE_KW] (fun st => Except.ok st) c5_state = Except.ok c5_state ∧
    c5_state.expected = [] := by
  exact ⟨rfl, rfl⟩

/-- C5 (amended): `if_next(set, p)` runs `p` iff the parser is not in the
failure state and the next non-trivia token exists and is in `set`
(consuming only leading trivia beforehand); it records the descriptions of
`set` in `expected[next_span]` exactly when the next non-trivia token
exists and is not in `set` (consuming nothing and not running `p`); at end
of input or in the failure state it does nothing. -/
theorem if_next_spec (ts : TokenSet) (p : M) (s : PState) :
    (s.state = PMode.failure → Parser.if_next ts p s = Except.ok s) ∧
    (s.state ≠ PMode.failure → Parser.peek_non_ws s = none →
      Parser.if_next ts p s = Except.ok s) ∧
    (∀ tok, s.state ≠ PMode.failure → Parser.peek_non_ws s = some tok →
      (ts_contains ts tok).isSome = true →
      Parser.if_next ts p s = p (Parser.trivia s) ∧
      (Parser.trivia s).toks = s.toks ∧
      s.pos ≤ (Parser.trivia s).pos ∧
      (∀ i, s.pos ≤ i → i < (Parser.trivia s).pos →
        ∃ t, s.toks.get? i = some t ∧ t.kind.is_trivia = true)) ∧
    (∀ tok, s.state ≠ PMode.failure → Parser.peek_non_ws s = some tok →
      ts_contains ts tok = none →
      Parser.if_next ts p s =
        Except.ok
          { s with
            expected := emap_extend s.expected tok.span (ts.map SyntaxKind.description) }) := by
  refine ⟨?_, ?_, ?_, ?_⟩
  · intro hf
    unfold Parser.if_next
    rw [if_pos hf]
  · intro hf hnone
    unfold Parser.if_next
    rw [if_neg hf, hnone]
  · intro tok hf hsome hin
    have htrivia : Parser.trivia s = Parser.trivia_go (s.toks.length - s.pos) s := by
      unfold Parser.trivia
      rw [if_neg hf]
    obtain ⟨h1, h2, h3, h4⟩ := trivia_go_spec (s.toks.length - s.pos) s
    refine ⟨?_, ?_, ?_, ?_⟩
    · unfold Parser.if_next
      rw [if_neg hf, hsome]
      dsimp only
      rw [if_pos hin]
    · rw [htrivia]; exact h1
    · rw [htrivia]; exact h3
    · rw [htrivia]; exact h4
  · intro tok hf hsome hnotin
    unfold Parser.if_next
    rw [if_neg hf, hsome]
    dsimp only
    rw [if_neg (by rw [hnotin]; simp)]

/-- C5 witness: `if_next` on the concrete state whose next token `true` is
not in the set `{IDENT}` records the description of `IDENT` and runs
nothing. -/
theorem if_next_spec_witness :
    Parser.if_next [IDENT] (fun st => Except.ok st) c5_state =
      Except.ok
        { c5_state with
          expected := emap_extend c5_state.expected ⟨0, 4⟩ ([IDENT].map SyntaxKind.description) } :=
  (if_next_spec [IDENT] (fun st => Except.ok st) c5_state).2.2.2 (mk_tok TRUE_KW 0 4)
    (by decide) (by decide) (by decide)

/-- Pushing the pending errors onto a syntax stream appends exactly the
corresponding `Error` events, in order. -/
theorem foldl_push_error (l : List (Span × String)) :
    ∀ o : SyntaxStream,
      (l.foldl (fun o e => o.push_error e.2 e.1) o).events =
        o.events ++ l.map (fun e => Event.error e.2 e.1) ∧
      (l.foldl (fun o e => o.push_error e.2 e.1) o).opens = o.opens := by
  induction l with
  | nil => intro o; simp
  | cons e rest ih =>
    intro o
    obtain ⟨h1, h2⟩ := ih (o.push_error e.2 e.1)
    constructor
    · rw [List.foldl_cons, h1]
      simp [SyntaxStream.push_error, List.append_assoc]
    · rw [List.foldl_cons, h2]
      rfl

/-- `handle_errors` only changes the three error containers; every other
field of the state is preserved on a non-panicking run. -/
theorem handle_errors_fields (s t : PState) (h : Parser.handle_errors s = Except.ok t) :
    t.src = s.src ∧ t.toks = s.toks ∧ t.pos = s.pos ∧ t.out = s.out ∧
    t.state = s.state ∧ t.opt_depth = s.opt_depth ∧ t.not_depth = s.not_depth ∧
    t.cache = s.cache := by
  unfold Parser.handle_errors at h
  by_cases h0 : s.opt_depth > 0
  · rw [if_pos h0] at h
    injection h with h
    subst h
    exact ⟨rfl, rfl, rfl, rfl, rfl, rfl, rfl, rfl⟩
  · rw [if_neg h0] at h
    dsimp only at h
    split at h
    · exact absurd h (by simp)
    · rename_i sp ed? heq
      split at h
      · injection h with h
        subst h
        exact ⟨rfl, rfl, rfl, rfl, rfl, rfl, rfl, rfl⟩
      · split at h
        · exact absurd h (by simp)
        · split at h
          · injection h with h
            subst h
            exact ⟨rfl, rfl, rfl, rfl, rfl, rfl, rfl, rfl⟩
          · split at h
            · exact absurd h (by simp)
            · injection h with h
              subst h
              exact ⟨rfl, rfl, rfl, rfl, rfl, rfl, rfl, rfl⟩

/-- C4 counterexample: (1) at a `recover_and_sync` whose next token is
already in the recovery set, the pending error is not moved to the syntax
stream; (2) `flush_errors` leaves the unexpected-token set untouched. -/
theorem flush_points_counterexample :
    (∃ t, Parser.recover_and_sync [R_BRACE] c4_sync_state = Except.ok t ∧
      t.pending = c4_sync_state.pending ∧ t.pending ≠ [] ∧ t.out.events = []) ∧
    (Parser.flush_errors c4_flush_state).unexpected = [⟨0, 1⟩] ∧
    (Parser.flush_errors c4_flush_state).unexpected ≠ [] := by
  refine ⟨⟨_, rfl, rfl, by decide, rfl⟩, rfl, by decide⟩

/-- Inverting a successful `Except` bind. -/
theorem bind_ok_inv {α β : Type} {x : Except PErr α} {f : α → Except PErr β} {b : β}
    (h : x >>= f = Except.ok b) : ∃ a, x = Except.ok a ∧ f a = Except.ok b := by
  cases x with
  | error e => exact absurd h (by simp [Bind.bind, Except.bind])
  | ok a => exact ⟨a, rfl, h⟩

/-- `trivia_go` changes only the cursor and the output stream. -/
theorem trivia_go_fields :
    ∀ (n : Nat) (s : PState),
      (Parser.trivia_go n s).state = s.state ∧
      (Parser.trivia_go n s).opt_depth = s.opt_depth ∧
      (Parser.trivia_go n s).not_depth = s.not_depth ∧
      (Parser.trivia_go n s).expected = s.expected ∧
      (Parser.trivia_go n s).unexpected = s.unexpected ∧
      (Parser.trivia_go n s).pending = s.pending ∧
      (Parser.trivia_go n s).cache = s.cache := by
  intro n
  induction n with
  | zero => intro s; exact ⟨rfl, rfl, rfl, rfl, rfl, rfl, rfl⟩
  | succ n ih =>
    intro s
    unfold Parser.trivia_go
    cases hp : s.toks.get? s.pos with
    | none => exact ⟨rfl, rfl, rfl, rfl, rfl, rfl, rfl⟩
    | some t =>
      dsimp only
      by_cases htr : t.kind.is_trivia = true
      · rw [if_pos htr]
        have hbump : Parser.bump s =
            { s with pos := s.pos + 1, out := s.out.push_token t.kind t.span } := by
          unfold Parser.bump
          rw [hp]
        rw [hbump]
        exact ih _
      · rw [if_neg htr]
        exact ⟨rfl, rfl, rfl, rfl, rfl, rfl, rfl⟩

/-- `trivia` changes only the cursor and the output stream. -/
theorem trivia_fields (s : PState) :
    (Parser.trivia s).state = s.state ∧
    (Parser.trivia s).opt_depth = s.opt_depth ∧
    (Parser.trivia s).not_depth = s.not_depth ∧
    (Parser.trivia s).expected = s.expected ∧
    (Parser.trivia s).unexpected = s.unexpected ∧
    (Parser.trivia s).pending = s.pending ∧
    (Parser.trivia s).cache = s.cache := by
  unfold Parser.trivia
  split
  · exact ⟨rfl, rfl, rfl, rfl, rfl, rfl, rfl⟩
  · exact trivia_go_fields _ s

/-- `expect_record` preserves the optional-branch depth. -/
theorem expect_record_opt (ts : TokenSet) (d : Option String) (tok : Token)
    (s : PState) (found : Option SyntaxKind) (s1 : PState)
    (h : Parser.expect_record ts d tok s = Except.ok (found, s1)) :
    s1.opt_depth = s.opt_depth := by
  unfold Parser.expect_record at h
  dsimp only at h
  split at h
  · obtain ⟨s2, hhe, h2⟩ := bind_ok_inv h
    injection h2 with h2
    have hs : s2 = s1 := congrArg Prod.snd h2
    obtain ⟨-, -, -, -, -, hopt, -, -⟩ := handle_errors_fields _ _ hhe
    rw [← hs, hopt]
  · obtain ⟨s2, hhe, h2⟩ := bind_ok_inv h
    injection h2 with h2
    have hs : s2 = s1 := congrArg Prod.snd h2
    obtain ⟨-, -, -, -, -, hopt, -, -⟩ := handle_errors_fields _ _ hhe
    rw [← hs, hopt]
  · injection h with h
    have hs : s = s1 := congrArg Prod.snd h
    rw [← hs]

/-- When the cursor is outside every optional branch, a consuming `expect`
ends with a flush: no pending errors and an empty expected map. -/
theorem expect_consume_flush (k : SyntaxKind) (s1 t : PState)
    (h0 : s1.opt_depth = 0) (h : Parser.expect_consume k s1 = Except.ok t) :
    t.pending = [] ∧ t.expected = [] := by
  unfold Parser.expect_consume at h
  dsimp only at h
  split at h
  · exact absurd h (by simp)
  · have hopt : (Parser.trivia s1).opt_depth = s1.opt_depth := (trivia_fields s1).2.1
    rw [if_pos (by rw [hopt, h0])] at h
    injection h with h
    subst h
    exact ⟨rfl, rfl⟩

/-- Closing the innermost node of a syntax stream appends one `End` event. -/
theorem close_events (st : SyntaxStream) :
    ∃ k, st.close.events = st.events ++ [Event.close k] := by
  rcases st with ⟨ev, op⟩
  cases op with
  | nil => exact ⟨ERROR, rfl⟩
  | cons k rest => exact ⟨k, rfl⟩

/-- `bump` leaves the pending and expected containers alone and appends at
most one token event. -/
theorem bump_shape (u : PState) :
    (Parser.bump u).pending = u.pending ∧ (Parser.bump u).expected = u.expected ∧
    ∃ b, (Parser.bump u).out.events = u.out.events ++ b ∧
      ∀ e ∈ b, ∃ k sp, e = Event.token k sp := by
  unfold Parser.bump
  cases hget : u.toks.get? u.pos with
  | none =>
    exact ⟨rfl, rfl, [], (List.append_nil _).symm, fun e he => absurd he (List.not_mem_nil e)⟩
  | some tk =>
    refine ⟨rfl, rfl, [Event.token tk.kind tk.span], rfl, ?_⟩
    intro e he
    exact ⟨tk.kind, tk.span, List.mem_singleton.mp he⟩

/-- The recovery scan loop leaves the pending and expected containers alone
and appends only token events. -/
theorem sync_go_shape (ts : TokenSet) : ∀ (n : Nat) (u : PState),
    (Parser.sync_go ts n u).pending = u.pending ∧
    (Parser.sync_go ts n u).expected = u.expected ∧
    ∃ a, (Parser.sync_go ts n u).out.events = u.out.events ++ a ∧
      ∀ e ∈ a, ∃ k sp, e = Event.token k sp := by
  intro n
  induction n with
  | zero =>
    intro u
    exact ⟨rfl, rfl, [], (List.append_nil _).symm, fun e he => absurd he (List.not_mem_nil e)⟩
  | succ n ih =>
    intro u
    unfold Parser.sync_go
    cases hp : Parser.peek u with
    | none =>
      exact ⟨rfl, rfl, [], (List.append_nil _).symm, fun e he => absurd he (List.not_mem_nil e)⟩
    | some tok =>
      dsimp only
      by_cases hin : (ts_contains ts tok).isSome = true
      · rw [if_pos hin]
        exact ⟨rfl, rfl, [], (List.append_nil _).symm, fun e he => absurd he (List.not_mem_nil e)⟩
      · rw [if_neg hin]
        obtain ⟨hbP, hbE, b, hbEv, hbTok⟩ := bump_shape u
        obtain ⟨hgP, hgE, a, hgEv, hgTok⟩ := ih (Parser.bump u)
        refine ⟨hgP.trans hbP, hgE.trans hbE, b ++ a, ?_, ?_⟩
        · rw [hgEv, hbEv, List.append_assoc]
        · intro e he
          rcases List.mem_append.mp he with h1 | h2
          · exact hbTok e h1
          · exact hgTok e h2

/-- The tail of `sync` after the error containers were settled: an `ERROR`
node around the scanned tokens. It preserves pending and expected and appends
no `Error` event. -/
theorem sync_tail_shape (ts : TokenSet) (n : Nat) (u : PState) (t : PState)
    (h : ({ (Parser.sync_go ts n { u with out := u.out.begin ERROR }) with
            out := (Parser.sync_go ts n { u with out := u.out.begin ERROR }).out.close } :
          PState) = t) :
    t.pending = u.pending ∧ t.expected = u.expected ∧
    ∃ a, t.out.events = u.out.events ++ Event.begin ERROR :: a ∧
      ∀ e ∈ a, ∀ msg sp, e ≠ Event.error msg sp := by
  subst h
  obtain ⟨hgP, hgE, a0, hgEv, hgTok⟩ :=
    sync_go_shape ts n { u with out := u.out.begin ERROR }
  refine ⟨hgP, hgE, ?_⟩
  obtain ⟨k, hk⟩ := close_events (Parser.sync_go ts n { u with out := u.out.begin ERROR }).out
  refine ⟨a0 ++ [Event.close k], ?_, ?_⟩
  · show (Parser.sync_go ts n { u with out := u.out.begin ERROR }).out.close.events =
      u.out.events ++ Event.begin ERROR :: (a0 ++ [Event.close k])
    rw [hk, hgEv]
    have hbe : ({ u with out := u.out.begin ERROR } : PState).out.events =
        u.out.events ++ [Event.begin ERROR] := rfl
    rw [hbe]
    simp [List.append_assoc]
  · intro e he msg sp
    rcases List.mem_append.mp he with h1 | h2
    · obtain ⟨k2, sp2, hek⟩ := hgTok e h1
      rw [hek]
      intro hcon
      exact Event.noConfusion hcon
    · rw [List.mem_singleton.mp h2]
      intro hcon
      exact Event.noConfusion hcon

/-- A non-panicking `handle_errors` run appends at most one pending error. -/
theorem handle_errors_pending (s t : PState) (h : Parser.handle_errors s = Except.ok t) :
    t.pending = s.pending ∨ ∃ sp msg, t.pending = s.pending ++ [(sp, msg)] := by
  unfold Parser.handle_errors at h
  by_cases h0 : s.opt_depth > 0
  · rw [if_pos h0] at h
    injection h with h
    subst h
    exact Or.inl rfl
  · rw [if_neg h0] at h
    dsimp only at h
    split at h
    · exact absurd h (by simp)
    · rename_i sp ed? heq
      split at h
      · injection h with h
        subst h
        exact Or.inl rfl
      · split at h
        · exact absurd h (by simp)
        · split at h
          · injection h with h
            subst h
            exact Or.inr ⟨_, _, rfl⟩
          · split at h
            · exact absurd h (by simp)
            · injection h with h
              subst h
              exact Or.inr ⟨_, _, rfl⟩

/-- C4 (amended): pending errors are moved to the syntax stream and the
expected-token map cleared when a mandatory `expect` succeeds at
`opt_depth == 0` and at each top-level-item boundary; `flush_errors` never
clears the unexpected-token set; and `recover_and_sync` flushes exactly when
the next non-trivia token exists, is not in the recovery set, and pending
errors exist: it is the identity (after recovery and trivia) when the next
token is in the set or the input is exhausted, it moves the pending errors to
the stream and clears pending and expected when they exist, and otherwise it
synthesizes at most one new pending error and emits no `Error` event at
all. -/
theorem error_flush_spec :
    (∀ s : PState,
      (Parser.flush_errors s).pending = [] ∧
      (Parser.flush_errors s).expected = [] ∧
      (Parser.flush_errors s).unexpected = s.unexpected ∧
      (Parser.flush_errors s).out.events =
        s.out.events ++ s.pending.map (fun e => Event.error e.2 e.1)) ∧
    (∀ (ts : TokenSet) (d : Option String) (s t : PState),
      s.opt_depth = 0 → Parser.expect_d ts d s = Except.ok t → t.state = PMode.ok →
      s.state = PMode.ok → t.pending = [] ∧ t.expected = []) ∧
    (∀ (g : Nat) (s t : PState),
      Parser.item_step g s = Except.ok t → t.pending = [] ∧ t.expected = []) ∧
    (∀ (ts : TokenSet) (s : PState) (tok : Token),
      Parser.peek (Parser.trivia (Parser.recover s)) = some tok →
      (ts_contains ts tok).isSome = true →
      Parser.recover_and_sync ts s = Except.ok (Parser.trivia (Parser.recover s))) ∧
    (∀ (ts : TokenSet) (s : PState),
      Parser.peek (Parser.trivia (Parser.recover s)) = none →
      Parser.recover_and_sync ts s = Except.ok (Parser.trivia (Parser.recover s))) ∧
    (∀ (ts : TokenSet) (s t : PState) (tok : Token),
      Parser.peek (Parser.trivia (Parser.recover s)) = some tok →
      (ts_contains ts tok).isSome = false →
      (Parser.trivia (Parser.recover s)).pending.isEmpty = false →
      Parser.recover_and_sync ts s = Except.ok t →
      t.pending = [] ∧ t.expected = [] ∧
      ∃ tail,
        t.out.events =
          (Parser.trivia (Parser.recover s)).out.events ++
            (Parser.trivia (Parser.recover s)).pending.map (fun e => Event.error e.2 e.1) ++
            Event.begin ERROR :: tail) ∧
    (∀ (ts : TokenSet) (s t : PState) (tok : Token),
      Parser.peek (Parser.trivia (Parser.recover s)) = some tok →
      (ts_contains ts tok).isSome = false →
      (Parser.trivia (Parser.recover s)).pending.isEmpty = true →
      Parser.recover_and_sync ts s = Except.ok t →
      (t.pending = [] ∨ ∃ sp msg, t.pending = [(sp, msg)]) ∧
      ∃ a, t.out.events = (Parser.trivia (Parser.recover s)).out.events ++ a ∧
        ∀ e ∈ a, ∀ msg sp, e ≠ Event.error msg sp) := by
  refine ⟨?_, ?_, ?_, ?_, ?_, ?_, ?_⟩
  · intro s
    exact ⟨rfl, rfl, rfl, (foldl_push_error s.pending s.out).1⟩
  · intro ts d s t h0 h hok hsok
    unfold Parser.expect_d at h
    split at h
    · exact absurd h (by simp)
    · split at h
      · rename_i hfail
        injection h with h
        subst h
        rw [hsok] at hfail
        exact absurd hfail (by decide)
      · cases hpeek : Parser.peek_non_ws s with
        | none =>
          rw [hpeek] at h
          have h2 : Except.ok { s with state := PMode.failure } = Except.ok t := h
          injection h2 with h2
          rw [← h2] at hok
          have h3 : PMode.failure = PMode.ok := hok
          exact absurd h3 (by decide)
        | some tok =>
          rw [hpeek] at h
          obtain ⟨fs, hrec, h2⟩ := bind_ok_inv h
          obtain ⟨found, s1⟩ := fs
          cases found with
          | none =>
            have h3 : Except.ok { s1 with state := PMode.failure } = Except.ok t := h2
            injection h3 with h3
            rw [← h3] at hok
            have h4 : PMode.failure = PMode.ok := hok
            exact absurd h4 (by decide)
          | some k =>
            have h3 : Parser.expect_consume k s1 = Except.ok t := h2
            have hopt1 : s1.opt_depth = s.opt_depth :=
              expect_record_opt ts d tok s (some k) s1 hrec
            exact expect_consume_flush k s1 t (by rw [hopt1, h0]) h3
  · intro g s t h
    unfold Parser.item_step at h
    dsimp only at h
    obtain ⟨s2, htop, h2⟩ := bind_ok_inv h
    injection h2 with h2
    subst h2
    exact ⟨rfl, rfl⟩
  · intro ts s tok hpeek hin
    unfold Parser.recover_and_sync Parser.sync
    simp only [hpeek, hin, eq_self_iff_true, if_true]
  · intro ts s hpeek
    unfold Parser.recover_and_sync Parser.sync
    simp only [hpeek]
  · intro ts s t tok hpeek hnin hpe h
    unfold Parser.recover_and_sync Parser.sync at h
    dsimp only at h
    split at h
    · rename_i heq0
      have heq0x : Parser.peek (Parser.trivia (Parser.recover s)) = none := heq0
      rw [hpeek] at heq0x
      exact Option.noConfusion heq0x
    · rename_i tok2 heq0
      have heq0x : Parser.peek (Parser.trivia (Parser.recover s)) = some tok2 := heq0
      rw [hpeek] at heq0x
      injection heq0x with htk
      subst htk
      split at h
      · rename_i hc
        have hcx : (ts_contains ts tok).isSome = true := hc
        rw [hnin] at hcx
        exact Bool.noConfusion hcx
      · split at h
        · rename_i hemp
          have hempx : (Parser.trivia (Parser.recover s)).pending.isEmpty = true := hemp
          rw [hpe] at hempx
          exact Bool.noConfusion hempx
        · obtain ⟨s2, hmid, hrest⟩ := bind_ok_inv h
          injection hmid with hmid2
          injection hrest with hrest2
          obtain ⟨hTp, hTe, a, hTev, hTa⟩ := sync_tail_shape ts _ _ t hrest2
          have hp2 : s2.pending = [] := by
            rw [← hmid2]
            rfl
          have he2 : s2.expected = [] := by
            rw [← hmid2]
            rfl
          have hf2 : s2.out.events =
              (Parser.trivia (Parser.recover s)).out.events ++
                (Parser.trivia (Parser.recover s)).pending.map
                  (fun e => Event.error e.2 e.1) := by
            rw [← hmid2]
            exact (foldl_push_error (Parser.trivia (Parser.recover s)).pending
              (Parser.trivia (Parser.recover s)).out).1
          refine ⟨?_, ?_, a, ?_⟩
          · rw [hTp, hp2]
          · rw [hTe, he2]
          · rw [hTev, hf2, List.append_assoc]
  · intro ts s t tok hpeek hnin hpe h
    unfold Parser.recover_and_sync Parser.sync at h
    dsimp only at h
    have hrp : (Parser.trivia (Parser.recover s)).pending = [] := List.isEmpty_iff.mp hpe
    split at h
    · rename_i heq0
      have heq0x : Parser.peek (Parser.trivia (Parser.recover s)) = none := heq0
      rw [hpeek] at heq0x
      exact Option.noConfusion heq0x
    · rename_i tok2 heq0
      have heq0x : Parser.peek (Parser.trivia (Parser.recover s)) = some tok2 := heq0
      rw [hpeek] at heq0x
      injection heq0x with htk
      subst htk
      split at h
      · rename_i hc
        have hcx : (ts_contains ts tok).isSome = true := hc
        rw [hnin] at hcx
        exact Bool.noConfusion hcx
      · obtain ⟨s2, hmid, hrest⟩ := bind_ok_inv h
        injection hrest with hrest2
        obtain ⟨hTp, hTe, a, hTev, hTa⟩ := sync_tail_shape ts _ _ t hrest2
        have hpend := handle_errors_pending _ _ hmid
        have hout := (handle_errors_fields _ _ hmid).2.2.2.1
        constructor
        · rcases hpend with h1 | ⟨sp, msg, h2⟩
          · left
            rw [hTp, h1]
            exact hrp
          · right
            refine ⟨sp, msg, ?_⟩
            rw [hTp, h2]
            have hfin : (Parser.trivia (Parser.recover s)).pending ++ [(sp, msg)] =
                [(sp, msg)] := by
              rw [hrp]
              rfl
            exact hfin
        · refine ⟨Event.begin ERROR :: a, ?_, ?_⟩
          · rw [hTev, hout]
          · intro e he msg sp
            rcases List.mem_cons.mp he with h1 | h2
            · rw [h1]
              intro hcon
              exact Event.noConfusion hcon
            · exact hTa e h2 msg sp

/-- C4 witness: at a concrete `recover_and_sync` whose next token (`}`) is
already in the recovery set, the parser recovers, consumes nothing, and in
particular performs no flush; and at the same state with a recovery set the
token is not in, the pending error is moved to the syntax stream as an
`Error` event and the pending and expected containers come out empty. -/
theorem error_flush_spec_witness :
    (Parser.recover_and_sync [R_BRACE] c4_sync_state =
      Except.ok (Parser.trivia (Parser.recover c4_sync_state))) ∧
    (∃ t, Parser.recover_and_sync [COLON] c4_sync_state = Except.ok t ∧
      t.pending = [] ∧ t.expected = [] ∧
      ∃ tail,
        t.out.events =
          (Parser.trivia (Parser.recover c4_sync_state)).out.events ++
            (Parser.trivia (Parser.recover c4_sync_state)).pending.map
              (fun e => Event.error e.2 e.1) ++
            Event.begin ERROR :: tail) := by
  refine ⟨error_flush_spec.2.2.2.1 [R_BRACE] c4_sync_state (mk_tok R_BRACE 0 1)
    (by decide) (by decide), ?_⟩
  obtain ⟨t, ht⟩ : ∃ t, Parser.recover_and_sync [COLON] c4_sync_state = Except.ok t :=
    ⟨_, rfl⟩
  exact ⟨t, ht, error_flush_spec.2.2.2.2.2.1 [COLON] c4_sync_state t (mk_tok R_BRACE 0 1)
    (by decide) (by decide) (by decide) ht⟩

/-- A left fold that keeps the element with the largest key, preferring the
later element on ties, picks a list member such that everything before it
has a key at most as large and everything after it a strictly smaller key. -/
theorem foldl_pick_last_max {α : Type} (key : α → Nat) :
    ∀ (l : List α) (a : α),
      ∃ pre c post,
        l.foldl (fun acc e => if key acc ≤ key e then e else acc) a = c ∧
        a :: l = pre ++ c :: post ∧
        (∀ x ∈ pre, key x ≤ key c) ∧ (∀ x ∈ post, key x < key c) := by
  intro l
  induction l with
  | nil =>
    intro a
    exact ⟨[], a, [], rfl, rfl, by simp, by simp⟩
  | cons e l ih =>
    intro a
    by_cases hle : key a ≤ key e
    · obtain ⟨pre, c, post, hfold, hdecomp, hpre, hpost⟩ := ih e
      refine ⟨a :: pre, c, post, ?_, ?_, ?_, hpost⟩
      · rw [List.foldl_cons, if_pos hle]
        exact hfold
      · rw [List.cons_append]
        exact congrArg (List.cons a) hdecomp
      · intro x hx
        rcases List.mem_cons.mp hx with rfl | hx2
        · cases pre with
          | nil =>
            injection hdecomp with h1 _
            rw [← h1]
            exact hle
          | cons p pre' =>
            injection hdecomp with h1 _
            have hp : key p ≤ key c := hpre p (List.mem_cons_self p pre')
            rw [h1] at hle
            exact Nat.le_trans hle hp
        · exact hpre x hx2
    · have hlt : key e < key a := Nat.lt_of_not_le hle
      obtain ⟨pre, c, post, hfold, hdecomp, hpre, hpost⟩ := ih a
      cases pre with
      | nil =>
        injection hdecomp with h1 h2
        refine ⟨[], a, e :: l, ?_, rfl, by simp, ?_⟩
        · rw [List.foldl_cons, if_neg hle, hfold, ← h1]
        · intro x hx
          rcases List.mem_cons.mp hx with rfl | hx2
          · exact hlt
          · rw [h1]
            exact hpost x (h2 ▸ hx2)
      | cons p pre' =>
        injection hdecomp with h1 h2
        refine ⟨a :: e :: pre', c, post, ?_, ?_, ?_, hpost⟩
        · rw [List.foldl_cons, if_neg hle]
          exact hfold
        · rw [List.cons_append, List.cons_append]
          exact congrArg (List.cons a) (congrArg (List.cons e) h2)
        · intro x hx
          have hpc : key p ≤ key c := hpre p (List.mem_cons_self p pre')
          have hac : key a ≤ key c := by rw [h1]; exact hpc
          rcases List.mem_cons.mp hx with rfl | hx2
          · exact hac
          · rcases List.mem_cons.mp hx2 with rfl | hx3
            · exact Nat.le_trans (Nat.le_of_lt hlt) hac
            · exact hpre x (List.mem_cons_of_mem p hx3)

/-- The option-valued maximum fold equals the plain fold once seeded. -/
theorem max_expected_eq_foldl :
    ∀ (rest : List (Span × List String)) (a : Span × List String),
      rest.foldl
        (fun acc e =>
          match acc with
          | none => some e
          | some x => if x.1.start ≤ e.1.start then some e else some x)
        (some a) =
      some (rest.foldl (fun acc e => if acc.1.start ≤ e.1.start then e else acc) a) := by
  intro rest
  induction rest with
  | nil => intro a; rfl
  | cons e rest ih =>
    intro a
    rw [List.foldl_cons, List.foldl_cons]
    dsimp only
    by_cases h : a.1.start ≤ e.1.start
    · rw [if_pos h, if_pos h]
      exact ih e
    · rw [if_neg h, if_neg h]
      exact ih a

/-- The option-valued maximum fold equals the plain fold once seeded
(unexpected-span version). -/
theorem max_unexpected_eq_foldl :
    ∀ (rest : List Span) (a : Span),
      rest.foldl
        (fun acc sp =>
          match acc with
          | none => some sp
          | some x => if x.start ≤ sp.start then some sp else some x)
        (some a) =
      some (rest.foldl (fun acc sp => if acc.start ≤ sp.start then sp else acc) a) := by
  intro rest
  induction rest with
  | nil => intro a; rfl
  | cons e rest ih =>
    intro a
    rw [List.foldl_cons, List.foldl_cons]
    dsimp only
    by_cases h : a.start ≤ e.start
    · rw [if_pos h, if_pos h]
      exact ih e
    · rw [if_neg h, if_neg h]
      exact ih a

/-- `max_by_key` over the expected map: the chosen record is a member whose
start offset is maximal, and it is the latest-inserted among the maximal
ones. -/
theorem max_expected_spec (l : List (Span × List String)) (hne : l ≠ []) :
    ∃ pre c post, max_expected l = some c ∧ l = pre ++ c :: post ∧
      (∀ x ∈ pre, x.1.start ≤ c.1.start) ∧ (∀ x ∈ post, x.1.start < c.1.start) := by
  cases l with
  | nil => exact absurd rfl hne
  | cons e rest =>
    have h1 : max_expected (e :: rest) =
        some (rest.foldl (fun acc x => if acc.1.start ≤ x.1.start then x else acc) e) := by
      unfold max_expected
      rw [List.foldl_cons]
      exact max_expected_eq_foldl rest e
    obtain ⟨pre, c, post, hfold, hdecomp, hpre, hpost⟩ :=
      foldl_pick_last_max (fun x => x.1.start) rest e
    exact ⟨pre, c, post, by rw [h1]; exact congrArg some hfold, hdecomp, hpre, hpost⟩

/-- `max_by_key` over the unexpected set, same statement. -/
theorem max_unexpected_spec (l : List Span) (hne : l ≠ []) :
    ∃ pre c post, max_unexpected l = some c ∧ l = pre ++ c :: post ∧
      (∀ x ∈ pre, x.start ≤ c.start) ∧ (∀ x ∈ post, x.start < c.start) := by
  cases l with
  | nil => exact absurd rfl hne
  | cons e rest =>
    have h1 : max_unexpected (e :: rest) =
        some (rest.foldl (fun acc x => if acc.start ≤ x.start then x else acc) e) := by
      unfold max_unexpected
      rw [List.foldl_cons]
      exact max_unexpected_eq_foldl rest e
    obtain ⟨pre, c, post, hfold, hdecomp, hpre, hpost⟩ :=
      foldl_pick_last_max (fun x : Span => x.start) rest e
    exact ⟨pre, c, post, by rw [h1]; exact congrArg some hfold, hdecomp, hpre, hpost⟩

/-- The message built by `handle_errors` from a non-empty description set is
the claimed format. -/
theorem built_msg_eq (ds : List String) (actual : String) (h : ds ≠ []) :
    ∃ init last, split_last ds = some (init, last) ∧
      (if init.isEmpty then "expecting " ++ last ++ ", found `" ++ actual ++ "`"
       else
        "expecting " ++ String.intercalate ", " init ++ " or " ++ last ++
          ", found `" ++ actual ++ "`") = expected_msg ds actual := by
  cases hgl : ds.getLast? with
  | none => exact absurd (List.getLast?_eq_none_iff.mp hgl) h
  | some last =>
    refine ⟨ds.dropLast, last, ?_, ?_⟩
    · unfold split_last
      rw [hgl]
    · unfold expected_msg
      rw [hgl]

/-- C3 counterexample: with the descriptions `A`, `B`, `C` collected for one
span of the source `x`, the code produces the message
"expecting A, B or C, found `x`" (no comma before "or"), while the claim's
stated format "expecting A, B, or C, found `X`" puts a comma before it; the
two strings differ. -/
theorem handle_errors_oxford_counterexample :
    (Parser.handle_errors c3_state).map (fun t => t.pending) =
      Except.ok [(⟨0, 1⟩, "expecting A, B or C, found `x`")] ∧
    claim_expected_msg ["A", "B", "C"] "x" = "expecting A, B, or C, found `x`" ∧
    ("expecting A, B or C, found `x`" : String) ≠ "expecting A, B, or C, found `x`" :=
  ⟨rfl, rfl, by decide⟩

/-- C3 (amended): when `handle_errors` runs with `opt_depth == 0` and at
least one error recorded (spans valid, description sets non-empty), it
drains both error containers and records at most one new pending error —
none if its span already has a pending message, and otherwise exactly one,
appended last. The chosen span is that of the expectation record with the
largest start offset (ties to the latest-inserted record), except that an
unexpected-token span at a strictly later offset wins; the message lists
every description collected for that span in the format
"expecting A, B or C, found `X`" (no comma before "or"), or reads
"unexpected `X`", where `X` is the source text at the chosen span. -/
theorem handle_errors_spec (s : PState)
    (h0 : s.opt_depth = 0)
    (hne : s.expected ≠ [] ∨ s.unexpected ≠ [])
    (hdescs : ∀ e ∈ s.expected, e.2 ≠ [])
    (hspansE : ∀ e ∈ s.expected, e.1.start ≤ e.1.stop ∧ e.1.stop ≤ s.src.length)
    (hspansU : ∀ u ∈ s.unexpected, u.start ≤ u.stop ∧ u.stop ≤ s.src.length) :
    ∃ sp msg,
      Parser.handle_errors s = Except.ok
        { s with
          expected := []
          unexpected := []
          pending :=
            if sp ∈ s.pending.map Prod.fst then s.pending
            else s.pending ++ [(sp, msg)] } ∧
      ((∃ pre ds post,
          s.expected = pre ++ (sp, ds) :: post ∧
          (∀ x ∈ pre, x.1.start ≤ sp.start) ∧
          (∀ x ∈ post, x.1.start < sp.start) ∧
          (∀ u ∈ s.unexpected, u.start ≤ sp.start) ∧
          ∃ actual, source_text s.src sp = some actual ∧ msg = expected_msg ds actual) ∨
       (∃ pre post,
          s.unexpected = pre ++ sp :: post ∧
          (∀ u ∈ pre, u.start ≤ sp.start) ∧
          (∀ u ∈ post, u.start < sp.start) ∧
          (∀ x ∈ s.expected, x.1.start < sp.start) ∧
          ∃ actual, source_text s.src sp = some actual ∧ msg = unexpected_msg actual)) := by
  have hopt : ¬ s.opt_depth > 0 := by omega
  by_cases hEe : s.expected = []
  · have hUne : s.unexpected ≠ [] := by
      rcases hne with h | h
      · exact absurd hEe h
      · exact h
    obtain ⟨preU, u, postU, hmu, hUdec, hUpre, hUpost⟩ := max_unexpected_spec s.unexpected hUne
    have hmem_u : u ∈ s.unexpected := by
      rw [hUdec]
      exact List.mem_append_right _ (List.mem_cons_self _ _)
    obtain ⟨hva, hvb⟩ := hspansU u hmem_u
    have hsrc : source_text s.src u =
        some (String.mk ((s.src.drop u.start).take (u.stop - u.start))) := by
      unfold source_text
      rw [if_pos ⟨hva, hvb⟩]
    refine ⟨u, unexpected_msg (String.mk ((s.src.drop u.start).take (u.stop - u.start))),
      ?_, ?_⟩
    · unfold Parser.handle_errors
      rw [if_neg hopt]
      dsimp only
      rw [hEe, hmu]
      have hme0 : max_expected ([] : List (Span × List String)) = none := rfl
      rw [hme0]
      dsimp only
      by_cases hmem : u ∈ s.pending.map Prod.fst
      · rw [if_pos hmem, if_pos hmem]
      · rw [if_neg hmem, if_neg hmem, hsrc]
        rfl
    · refine Or.inr ⟨preU, postU, hUdec, hUpre, hUpost, ?_, _, hsrc, rfl⟩
      intro x hx
      rw [hEe] at hx
      exact absurd hx (List.not_mem_nil x)
  · obtain ⟨preE, c, postE, hme, hEdec, hEpre, hEpost⟩ := max_expected_spec s.expected hEe
    have hmem_c : c ∈ s.expected := by
      rw [hEdec]
      exact List.mem_append_right _ (List.mem_cons_self _ _)
    obtain ⟨hva, hvb⟩ := hspansE c hmem_c
    have hds : c.2 ≠ [] := hdescs c hmem_c
    have hsrcE : source_text s.src c.1 =
        some (String.mk ((s.src.drop c.1.start).take (c.1.stop - c.1.start))) := by
      unfold source_text
      rw [if_pos ⟨hva, hvb⟩]
    obtain ⟨init, last, hsplit, hmsgeq⟩ :=
      built_msg_eq c.2 (String.mk ((s.src.drop c.1.start).take (c.1.stop - c.1.start))) hds
    by_cases hUe : s.unexpected = []
    · refine ⟨c.1,
        expected_msg c.2 (String.mk ((s.src.drop c.1.start).take (c.1.stop - c.1.start))),
        ?_, ?_⟩
      · unfold Parser.handle_errors
        rw [if_neg hopt]
        dsimp only
        rw [hUe, hme]
        have hmu0 : max_unexpected ([] : List Span) = none := rfl
        rw [hmu0]
        dsimp only
        by_cases hmem : c.1 ∈ s.pending.map Prod.fst
        · rw [if_pos hmem, if_pos hmem]
        · rw [if_neg hmem, if_neg hmem, hsrcE]
          dsimp only
          rw [hsplit]
          dsimp only
          rw [hmsgeq]
      · refine Or.inl ⟨preE, c.2, postE, ?_, hEpre, hEpost, ?_, _, hsrcE, rfl⟩
        · exact hEdec
        · intro x hx
          rw [hUe] at hx
          exact absurd hx (List.not_mem_nil x)
    · obtain ⟨preU, u, postU, hmu, hUdec, hUpre, hUpost⟩ :=
        max_unexpected_spec s.unexpected hUe
      have hmem_u : u ∈ s.unexpected := by
        rw [hUdec]
        exact List.mem_append_right _ (List.mem_cons_self _ _)
      obtain ⟨huva, huvb⟩ := hspansU u hmem_u
      have hsrcU : source_text s.src u =
          some (String.mk ((s.src.drop u.start).take (u.stop - u.start))) := by
        unfold source_text
        rw [if_pos ⟨huva, huvb⟩]
      by_cases hcmp : c.1.start < u.start
      · refine ⟨u, unexpected_msg (String.mk ((s.src.drop u.start).take (u.stop - u.start))),
          ?_, ?_⟩
        · unfold Parser.handle_errors
          rw [if_neg hopt]
          dsimp only
          rw [hme, hmu]
          dsimp only
          rw [if_pos hcmp]
          dsimp only
          by_cases hmem : u ∈ s.pending.map Prod.fst
          · rw [if_pos hmem, if_pos hmem]
          · rw [if_neg hmem, if_neg hmem, hsrcU]
            rfl
        · refine Or.inr ⟨preU, postU, hUdec, hUpre, hUpost, ?_, _, hsrcU, rfl⟩
          intro x hx
          rw [hEdec] at hx
          rcases List.mem_append.mp hx with hx1 | hx2
          · exact Nat.lt_of_le_of_lt (hEpre x hx1) hcmp
          · rcases List.mem_cons.mp hx2 with rfl | hx3
            · exact hcmp
            · exact Nat.lt_trans (hEpost x hx3) hcmp
      · refine ⟨c.1,
          expected_msg c.2 (String.mk ((s.src.drop c.1.start).take (c.1.stop - c.1.start))),
          ?_, ?_⟩
        · unfold Parser.handle_errors
          rw [if_neg hopt]
          dsimp only
          rw [hme, hmu]
          dsimp only
          rw [if_neg hcmp]
          dsimp only
          by_cases hmem : c.1 ∈ s.pending.map Prod.fst
          · rw [if_pos hmem, if_pos hmem]
          · rw [if_neg hmem, if_neg hmem, hsrcE]
            dsimp only
            rw [hsplit]
            dsimp only
            rw [hmsgeq]
        · refine Or.inl ⟨preE, c.2, postE, hEdec, hEpre, hEpost, ?_, _, hsrcE, rfl⟩
          intro x hx
          have hxu : x.start ≤ u.start := by
            rw [hUdec] at hx
            rcases List.mem_append.mp hx with hx1 | hx2
            · exact hUpre x hx1
            · rcases List.mem_cons.mp hx2 with rfl | hx3
              · exact Nat.le_refl _
              · exact Nat.le_of_lt (hUpost x hx3)
          exact Nat.le_trans hxu (Nat.le_of_not_lt hcmp)

/-- C3 witness: the amended `handle_errors` characterization at the concrete
state of the source `x` with the descriptions `A`, `B`, `C` collected for
the span `[0, 1)`. -/
theorem handle_errors_spec_witness :
    ∃ sp msg,
      Parser.handle_errors c3_state = Except.ok
        { c3_state with
          expected := []
          unexpected := []
          pending :=
            if sp ∈ c3_state.pending.map Prod.fst then c3_state.pending
            else c3_state.pending ++ [(sp, msg)] } ∧
      ((∃ pre ds post,
          c3_state.expected = pre ++ (sp, ds) :: post ∧
          (∀ x ∈ pre, x.1.start ≤ sp.start) ∧
          (∀ x ∈ post, x.1.start < sp.start) ∧
          (∀ u ∈ c3_state.unexpected, u.start ≤ sp.start) ∧
          ∃ actual, source_text c3_state.src sp = some actual ∧
            msg = expected_msg ds actual) ∨
       (∃ pre post,
          c3_state.unexpected = pre ++ sp :: post ∧
          (∀ u ∈ pre, u.start ≤ sp.start) ∧
          (∀ u ∈ post, u.start < sp.start) ∧
          (∀ x ∈ c3_state.expected, x.1.start < sp.start) ∧
          ∃ actual, source_text c3_state.src sp = some actual ∧
            msg = unexpected_msg actual)) :=
  handle_errors_spec c3_state rfl (Or.inl (by decide)) (by decide) (by decide) (by decide)


/-- `tok_spans` distributes over appending event lists. -/
theorem tok_spans_append (a b : List Event) :
    tok_spans (a ++ b) = tok_spans a ++ tok_spans b := by
  unfold tok_spans
  rw [List.filterMap_append]

/-- A list of `Error` events contributes no token spans. -/
theorem tok_spans_map_error : ∀ (l : List (Span × String)),
    tok_spans (l.map (fun e => Event.error e.2 e.1)) = []
  | [] => rfl
  | _ :: rest => tok_spans_map_error rest

/-- The spans of the tokens between a position and itself: none. -/
theorem spans_between_refl (toks : List Token) (i : Nat) :
    spans_between toks i i = [] := by
  simp [spans_between]

/-- Adjacent token ranges concatenate. -/
theorem spans_between_concat (toks : List Token) (i j k : Nat)
    (hij : i ≤ j) (hjk : j ≤ k) :
    spans_between toks i j ++ spans_between toks j k = spans_between toks i k := by
  unfold spans_between
  rw [← List.map_append]
  congr 1
  have h1 : toks.drop j = (toks.drop i).drop (j - i) := by
    rw [List.drop_drop]
    congr 1
    omega
  have h2 : k - i = (j - i) + (k - j) := by omega
  rw [h1, h2, List.take_add]

/-- `Extends` is reflexive on in-bounds states. -/
theorem extends_refl (s : PState) (hb : s.pos ≤ s.toks.length) : Extends s s := by
  refine ⟨rfl, rfl, Nat.le_refl _, hb, ⟨[], List.append_nil _⟩, ?_⟩
  rw [List.drop_length, spans_between_refl]
  rfl

/-- `Extends` is transitive. -/
theorem extends_trans {s t u : PState} (h1 : Extends s t) (h2 : Extends t u) :
    Extends s u := by
  obtain ⟨a, ha⟩ := h1.out_pre
  obtain ⟨b, hob⟩ := h2.out_pre
  refine ⟨h2.toks_eq.trans h1.toks_eq, h2.src_eq.trans h1.src_eq,
    Nat.le_trans h1.pos_le h2.pos_le, h1.toks_eq ▸ h2.pos_bound, ?_, ?_⟩
  · exact ⟨a ++ b, by rw [← List.append_assoc, ha, hob]⟩
  · have hu : u.out.events = s.out.events ++ (a ++ b) := by
      rw [← List.append_assoc, ha, hob]
    have hna : tok_spans a = spans_between s.toks s.pos t.pos := by
      have hx := h1.new_spans
      rw [← ha, List.drop_left] at hx
      exact hx
    have hnb : tok_spans b = spans_between s.toks t.pos u.pos := by
      have hx := h2.new_spans
      rw [← hob, List.drop_left, h1.toks_eq] at hx
      exact hx
    rw [hu, List.drop_left, tok_spans_append, hna, hnb]
    exact spans_between_concat s.toks s.pos t.pos u.pos h1.pos_le h2.pos_le

/-- The cursor of an extension stays in bounds of its own token list. -/
theorem extends_bound {s t : PState} (h : Extends s t) : t.pos ≤ t.toks.length := by
  rw [h.toks_eq]
  exact h.pos_bound

/-- A state that appends only non-token events, leaves the cursor alone and
keeps the token list and the source extends the original. -/
theorem extends_out_only {s : PState} (t : PState) (a : List Event)
    (h1 : t.toks = s.toks) (h2 : t.src = s.src) (h3 : t.pos = s.pos)
    (h4 : t.out.events = s.out.events ++ a) (h5 : tok_spans a = [])
    (hb : s.pos ≤ s.toks.length) : Extends s t := by
  refine ⟨h1, h2, h3.ge, h3.le.trans hb, ?_, ?_⟩
  · rw [h4]
    exact ⟨a, rfl⟩
  · rw [h4, List.drop_left, h5, h3, spans_between_refl]

/-- Changing the fields `Extends` does not track preserves the relation on
the right. -/
theorem extends_same_fields {s u : PState} (t : PState) (h : Extends s u)
    (h1 : t.toks = u.toks) (h2 : t.src = u.src) (h3 : t.pos = u.pos)
    (h4 : t.out.events = u.out.events) : Extends s t := by
  refine ⟨h1.trans h.toks_eq, h2.trans h.src_eq, ?_, ?_, ?_, ?_⟩
  · rw [h3]
    exact h.pos_le
  · rw [h3]
    exact h.pos_bound
  · rw [h4]
    exact h.out_pre
  · rw [h4, h3]
    exact h.new_spans

/-- Changing the fields `Extends` does not track preserves the relation on
the left. -/
theorem extends_cast_left {s s' t : PState} (h : Extends s' t)
    (h1 : s'.toks = s.toks) (h2 : s'.src = s.src) (h3 : s'.pos = s.pos)
    (h4 : s'.out.events = s.out.events) : Extends s t := by
  refine ⟨h.toks_eq.trans h1, h.src_eq.trans h2, ?_, ?_, ?_, ?_⟩
  · rw [← h3]
    exact h.pos_le
  · rw [← h1]
    exact h.pos_bound
  · rw [← h4]
    exact h.out_pre
  · rw [← h4, ← h3, ← h1]
    exact h.new_spans

/-- A run of a sound operation from an already-reached state extends the
origin. -/
theorem extends_step {s u v : PState} {f : M} (e : Extends s u) (hf : Sound f)
    (h : f u = Except.ok v) : Extends s v :=
  extends_trans e (hf u v (extends_bound e) h)

/-- Consuming the token under the cursor and pushing a token event with its
span extends the state, whatever kind the event carries. -/
theorem extends_push_tok {s : PState} (k : SyntaxKind) (tok : Token)
    (hget : s.toks.get? s.pos = some tok) :
    Extends s { s with pos := s.pos + 1, out := s.out.push_token k tok.span } := by
  have hlt : s.pos < s.toks.length := (List.get?_eq_some.mp hget).1
  have hd : s.toks.drop s.pos = tok :: s.toks.drop (s.pos + 1) := by
    obtain ⟨hlt2, hget2⟩ := List.get?_eq_some.mp hget
    rw [List.drop_eq_getElem_cons hlt2]
    congr 1
  refine ⟨rfl, rfl, Nat.le_succ _, hlt, ?_, ?_⟩
  · exact ⟨[Event.token k tok.span], rfl⟩
  · show tok_spans ((s.out.events ++ [Event.token k tok.span]).drop s.out.events.length) =
      spans_between s.toks s.pos (s.pos + 1)
    rw [List.drop_left]
    unfold spans_between
    rw [hd]
    simp [tok_spans]

/-- `bump` extends the state. -/
theorem extends_bump (s : PState) (hb : s.pos ≤ s.toks.length) :
    Extends s (Parser.bump s) := by
  unfold Parser.bump
  cases hget : s.toks.get? s.pos with
  | none => exact extends_refl s hb
  | some t => exact extends_push_tok t.kind t hget

/-- The trivia-consumption loop extends the state. -/
theorem extends_trivia_go (n : Nat) : ∀ (s : PState), s.pos ≤ s.toks.length →
    Extends s (Parser.trivia_go n s) := by
  induction n with
  | zero => intro s hb; exact extends_refl s hb
  | succ n ih =>
    intro s hb
    unfold Parser.trivia_go
    cases hget : s.toks.get? s.pos with
    | none => exact extends_refl s hb
    | some t =>
      dsimp only
      by_cases htr : t.kind.is_trivia = true
      · rw [if_pos htr]
        have h1 := extends_bump s hb
        exact extends_trans h1 (ih _ (extends_bound h1))
      · rw [if_neg htr]
        exact extends_refl s hb

/-- `trivia` extends the state. -/
theorem extends_trivia (s : PState) (hb : s.pos ≤ s.toks.length) :
    Extends s (Parser.trivia s) := by
  unfold Parser.trivia
  split
  · exact extends_refl s hb
  · exact extends_trivia_go _ s hb

/-- `begin` extends the state. -/
theorem extends_begin (k : SyntaxKind) : ∀ (s : PState), s.pos ≤ s.toks.length →
    Extends s (Parser.begin k s) := by
  intro s hb
  unfold Parser.begin
  have h1 := extends_trivia s hb
  exact extends_trans h1
    (extends_out_only _ [Event.begin k] rfl rfl rfl rfl rfl (extends_bound h1))

/-- Closing a syntax stream with an error appends one `EndWithError` event. -/
theorem close_with_error_events (st : SyntaxStream) :
    st.close_with_error.events = st.events ++ [Event.closeWithError] := by
  rcases st with ⟨ev, op⟩
  cases op with
  | nil => rfl
  | cons k rest => rfl

/-- Appending a plain `End` event to the output extends the state. -/
theorem extends_out_close (s : PState) (hb : s.pos ≤ s.toks.length) :
    Extends s { s with out := s.out.close } := by
  obtain ⟨k, hk⟩ := close_events s.out
  exact extends_out_only _ [Event.close k] rfl rfl rfl hk rfl hb

/-- `ParserImpl::end` extends the state. -/
theorem extends_close (s : PState) (hb : s.pos ≤ s.toks.length) :
    Extends s (Parser.close s) := by
  unfold Parser.close
  split
  · exact extends_out_only _ [Event.closeWithError] rfl rfl rfl
      (close_with_error_events s.out) rfl hb
  · exact extends_out_close s hb

/-- Pushing an error event extends the state. -/
theorem extends_push_error (s : PState) (hb : s.pos ≤ s.toks.length)
    (msg : String) (sp : Span) :
    Extends s { s with out := s.out.push_error msg sp } :=
  extends_out_only _ [Event.error msg sp] rfl rfl rfl rfl rfl hb

/-- Opening a node on the output stream extends the state. -/
theorem extends_out_begin (s : PState) (hb : s.pos ≤ s.toks.length)
    (k : SyntaxKind) : Extends s { s with out := s.out.begin k } :=
  extends_out_only _ [Event.begin k] rfl rfl rfl rfl rfl hb

/-- `flush_errors` extends the state: it only appends error events. -/
theorem extends_flush (s : PState) (hb : s.pos ≤ s.toks.length) :
    Extends s (Parser.flush_errors s) := by
  refine extends_out_only _ (s.pending.map (fun e => Event.error e.2 e.1))
    rfl rfl rfl ?_ (tok_spans_map_error s.pending) hb
  exact (foldl_push_error s.pending s.out).1

/-- A non-panicking `handle_errors` run extends the state: the output stream
and the cursor are untouched. -/
theorem extends_handle_errors {s t : PState} (h : Parser.handle_errors s = Except.ok t)
    (hb : s.pos ≤ s.toks.length) : Extends s t := by
  obtain ⟨hsrc, htoks, hpos, hout, -, -, -, -⟩ := handle_errors_fields s t h
  exact extends_same_fields t (extends_refl s hb) htoks hsrc hpos
    (congrArg SyntaxStream.events hout)

/-- Restoring a bookmark taken at a state from any later-reached output
extends the bookmarked state (trivially: nothing new remains). -/
theorem restore_extends {s t : PState} (hb : s.pos ≤ s.toks.length)
    (htoks : t.toks = s.toks) (hsrc : t.src = s.src)
    (hpre : s.out.events <+: t.out.events) :
    Extends s (Parser.restore_bookmark t (Parser.bookmark s)) := by
  obtain ⟨a, ha⟩ := hpre
  have h1 : t.out.events.take s.out.events.length = s.out.events := by
    rw [← ha]
    exact List.take_left _ _
  refine ⟨htoks, hsrc, Nat.le_refl _, hb, ?_, ?_⟩
  · show s.out.events <+: t.out.events.take s.out.events.length
    rw [h1]
  · show tok_spans ((t.out.events.take s.out.events.length).drop s.out.events.length) =
      spans_between s.toks s.pos s.pos
    rw [h1, List.drop_length, spans_between_refl]
    rfl


/-- `expect_record` leaves the token cursor, the token list, the source and
the output stream untouched. -/
theorem expect_record_fields (ts : TokenSet) (d : Option String) (tok : Token)
    (s : PState) (found : Option SyntaxKind) (s1 : PState)
    (h : Parser.expect_record ts d tok s = Except.ok (found, s1)) :
    s1.toks = s.toks ∧ s1.src = s.src ∧ s1.pos = s.pos ∧ s1.out = s.out := by
  unfold Parser.expect_record at h
  dsimp only at h
  split at h
  · obtain ⟨s2, hhe, h2⟩ := bind_ok_inv h
    injection h2 with h2
    have hs : s2 = s1 := congrArg Prod.snd h2
    obtain ⟨hsrc, htoks, hpos, hout, -, -, -, -⟩ := handle_errors_fields _ _ hhe
    rw [← hs]
    exact ⟨htoks, hsrc, hpos, hout⟩
  · obtain ⟨s2, hhe, h2⟩ := bind_ok_inv h
    injection h2 with h2
    have hs : s2 = s1 := congrArg Prod.snd h2
    obtain ⟨hsrc, htoks, hpos, hout, -, -, -, -⟩ := handle_errors_fields _ _ hhe
    rw [← hs]
    exact ⟨htoks, hsrc, hpos, hout⟩
  · injection h with h
    have hs : s = s1 := congrArg Prod.snd h
    rw [← hs]
    exact ⟨rfl, rfl, rfl, rfl⟩

/-- A successful `expect_consume` extends the state: trivia, one token event
with the consumed token's span, and possibly flushed error events. -/
theorem extends_expect_consume (k : SyntaxKind) {s t : PState}
    (h : Parser.expect_consume k s = Except.ok t) (hb : s.pos ≤ s.toks.length) :
    Extends s t := by
  unfold Parser.expect_consume at h
  dsimp only at h
  have h1 : Extends s (Parser.trivia s) := extends_trivia s hb
  split at h
  · exact absurd h (by simp)
  · rename_i tok2 hget
    have h2 := extends_push_tok k tok2 hget
    split at h
    · injection h with h3
      rw [← h3]
      exact extends_trans h1 (extends_trans h2 (extends_flush _ (extends_bound h2)))
    · injection h with h3
      rw [← h3]
      exact extends_trans h1 h2

/-- `expect_d` is sound. -/
theorem sound_expect_d (ts : TokenSet) (d : Option String) :
    Sound (Parser.expect_d ts d) := by
  intro s t hb h
  unfold Parser.expect_d at h
  split at h
  · exact absurd h (by simp)
  · split at h
    · injection h with h2
      rw [← h2]
      exact extends_refl s hb
    · obtain ⟨a, hrec, hrest⟩ := bind_ok_inv h
      rcases a with ⟨found, s1⟩
      cases hpk : Parser.peek_non_ws s with
      | none =>
        rw [hpk] at hrec
        have hrec' : Except.ok ((none : Option SyntaxKind), s) = Except.ok (found, s1) := hrec
        injection hrec' with h2
        have hf : found = none := (congrArg Prod.fst h2).symm
        have hs : s = s1 := congrArg Prod.snd h2
        subst hf
        have hrest' : Except.ok { s1 with state := PMode.failure } = Except.ok t := hrest
        injection hrest' with h3
        rw [← h3, ← hs]
        exact extends_same_fields _ (extends_refl s hb) rfl rfl rfl rfl
      | some tok =>
        rw [hpk] at hrec
        have hfields := expect_record_fields ts d tok s found s1 hrec
        have hX : Extends s s1 := extends_same_fields s1 (extends_refl s hb)
          hfields.1 hfields.2.1 hfields.2.2.1 (congrArg SyntaxStream.events hfields.2.2.2)
        cases found with
        | some k =>
          have hrest' : Parser.expect_consume k s1 = Except.ok t := hrest
          exact extends_trans hX (extends_expect_consume k hrest' (extends_bound hX))
        | none =>
          have hrest' : Except.ok { s1 with state := PMode.failure } = Except.ok t := hrest
          injection hrest' with h3
          rw [← h3]
          exact extends_same_fields _ hX rfl rfl rfl rfl

/-- `expect` is sound. -/
theorem sound_expect (ts : TokenSet) : Sound (Parser.expect ts) :=
  sound_expect_d ts none

/-- The recovery scan loop extends the state. -/
theorem extends_sync_go (ts : TokenSet) (n : Nat) : ∀ (s : PState),
    s.pos ≤ s.toks.length → Extends s (Parser.sync_go ts n s) := by
  induction n with
  | zero => intro s hb; exact extends_refl s hb
  | succ n ih =>
    intro s hb
    unfold Parser.sync_go
    cases hp : Parser.peek s with
    | none => exact extends_refl s hb
    | some tok =>
      dsimp only
      by_cases hin : (ts_contains ts tok).isSome = true
      · rw [if_pos hin]
        exact extends_refl s hb
      · rw [if_neg hin]
        have h1 := extends_bump s hb
        exact extends_trans h1 (ih _ (extends_bound h1))

/-- `sync` is sound. -/
theorem sound_sync (ts : TokenSet) : Sound (Parser.sync ts) := by
  intro s t hb h
  unfold Parser.sync at h
  dsimp only at h
  have h1 : Extends s (Parser.trivia s) := extends_trivia s hb
  split at h
  · injection h with h2
    rw [← h2]
    exact h1
  · rename_i tok hpk
    split at h
    · injection h with h2
      rw [← h2]
      exact h1
    · have hX : Extends s { Parser.trivia s with
          expected := emap_extend (Parser.trivia s).expected tok.span
            (ts.map SyntaxKind.description) } :=
        extends_same_fields _ h1 rfl rfl rfl rfl
      have hbX := extends_bound hX
      split at h
      · obtain ⟨s2, hmid, hrest⟩ := bind_ok_inv h
        have h2 : Extends s s2 := extends_trans hX (extends_handle_errors hmid hbX)
        injection hrest with h4
        rw [← h4]
        have h3 : Extends s2 { s2 with out := s2.out.begin ERROR } :=
          extends_out_begin s2 (extends_bound h2) ERROR
        have hb3 := extends_bound h3
        refine extends_trans h2 (extends_trans h3
          (extends_trans (extends_sync_go ts _ _ hb3) (extends_out_close _ ?_)))
        exact extends_bound (extends_sync_go ts _ _ hb3)
      · obtain ⟨s2, hmid, hrest⟩ := bind_ok_inv h
        injection hmid with h5
        have h2 : Extends s s2 := by
          rw [← h5]
          exact extends_trans hX (extends_flush _ hbX)
        injection hrest with h4
        rw [← h4]
        have h3 : Extends s2 { s2 with out := s2.out.begin ERROR } :=
          extends_out_begin s2 (extends_bound h2) ERROR
        have hb3 := extends_bound h3
        refine extends_trans h2 (extends_trans h3
          (extends_trans (extends_sync_go ts _ _ hb3) (extends_out_close _ ?_)))
        exact extends_bound (extends_sync_go ts _ _ hb3)

/-- `recover_and_sync` is sound. -/
theorem sound_recover_and_sync (ts : TokenSet) : Sound (Parser.recover_and_sync ts) := by
  intro s t hb h
  have h1 : Extends (Parser.recover s) t := sound_sync ts (Parser.recover s) t hb h
  exact extends_cast_left h1 rfl rfl rfl rfl

/-- `opt` is sound. -/
theorem sound_opt (p : M) (hp : Sound p) : Sound (Parser.opt p) := by
  intro s t hb h
  unfold Parser.opt at h
  split at h
  · injection h with h2
    rw [← h2]
    exact extends_refl s hb
  · dsimp only at h
    obtain ⟨s2, hps, hrest⟩ := bind_ok_inv h
    have h1 : Extends s { Parser.trivia s with
        opt_depth := (Parser.trivia s).opt_depth + 1 } :=
      extends_same_fields _ (extends_trivia s hb) rfl rfl rfl rfl
    have h2 : Extends s s2 := extends_step h1 hp hps
    split at hrest
    · injection hrest with h3
      rw [← h3]
      exact restore_extends hb h2.toks_eq h2.src_eq h2.out_pre
    · injection hrest with h3
      rw [← h3]
      exact extends_same_fields _ h2 rfl rfl rfl rfl

/-- `not` is sound: it always restores the bookmark. -/
theorem sound_not (p : M) (hp : Sound p) : Sound (Parser.not p) := by
  intro s t hb h
  unfold Parser.not at h
  split at h
  · injection h with h2
    rw [← h2]
    exact extends_refl s hb
  · dsimp only at h
    obtain ⟨s2, hps, hrest⟩ := bind_ok_inv h
    have h1 : Extends s { Parser.trivia s with
        not_depth := (Parser.trivia s).not_depth + 1 } :=
      extends_same_fields _ (extends_trivia s hb) rfl rfl rfl rfl
    have h2 : Extends s s2 := extends_step h1 hp hps
    injection hrest with h3
    rw [← h3]
    exact restore_extends hb h2.toks_eq h2.src_eq h2.out_pre

/-- `opt_expect` is sound. -/
theorem sound_opt_expect (ts : TokenSet) : Sound (Parser.opt_expect ts) :=
  sound_opt _ (sound_expect ts)

/-- `if_next` is sound. -/
theorem sound_if_next (ts : TokenSet) (p : M) (hp : Sound p) :
    Sound (Parser.if_next ts p) := by
  intro s t hb h
  unfold Parser.if_next at h
  split at h
  · injection h with h2
    rw [← h2]
    exact extends_refl s hb
  · split at h
    · injection h with h2
      rw [← h2]
      exact extends_refl s hb
    · rename_i tok hpk
      split at h
      · exact extends_step (extends_trivia s hb) hp h
      · injection h with h2
        rw [← h2]
        exact extends_same_fields _ (extends_refl s hb) rfl rfl rfl rfl

/-- `then` is sound. -/
theorem sound_then (p : M) (hp : Sound p) : Sound (Parser.then' p) := by
  intro s t hb h
  unfold Parser.then' at h
  split at h
  · injection h with h2
    rw [← h2]
    exact extends_refl s hb
  · exact extends_step (extends_trivia s hb) hp h

/-- Sequencing two sound operations is sound. -/
theorem sound_seq (f k : M) (hf : Sound f) (hk : Sound k) :
    Sound (fun s => f s >>= k) := by
  intro s t hb h
  obtain ⟨u, h1, h2⟩ := bind_ok_inv h
  exact extends_step (hf s u hb h1) hk h2

/-- `cond` is sound. -/
theorem sound_cond (ts : TokenSet) (p : M) (hp : Sound p) :
    Sound (Parser.cond ts p) := by
  intro s t hb h
  unfold Parser.cond at h
  exact sound_if_next _ _ (sound_seq _ _ (sound_expect ts) (sound_then p hp)) s t hb h

/-- The Kleene tail of `n_or_more` is sound. -/
theorem sound_n_or_more_go (p : M) (hp : Sound p) : ∀ (fuel : Nat),
    Sound (Parser.n_or_more_go p fuel) := by
  intro fuel
  induction fuel with
  | zero => intro s t hb h; exact Except.noConfusion h
  | succ fuel ih =>
    intro s t hb h
    unfold Parser.n_or_more_go at h
    dsimp only at h
    obtain ⟨v, hpv, hrest⟩ := bind_ok_inv h
    have h1 : Extends s { Parser.trivia s with
        opt_depth := (Parser.trivia s).opt_depth + 1 } :=
      extends_same_fields _ (extends_trivia s hb) rfl rfl rfl rfl
    have h2 : Extends s v := extends_step h1 hp hpv
    split at hrest
    · injection hrest with h3
      rw [← h3]
      exact restore_extends hb h2.toks_eq h2.src_eq h2.out_pre
    · have hbv := extends_bound h2
      exact extends_trans h2 (extends_cast_left (ih _ t (by exact hbv) hrest) rfl rfl rfl rfl)

/-- The mandatory head of `n_or_more` is sound. -/
theorem sound_n_or_more_req (p : M) (hp : Sound p) : ∀ (k : Nat),
    Sound (Parser.n_or_more_req p k) := by
  intro k
  induction k with
  | zero =>
    intro s t hb h
    have h' : Except.ok s = Except.ok t := h
    injection h' with h2
    rw [← h2]
    exact extends_refl s hb
  | succ k ih =>
    intro s t hb h
    unfold Parser.n_or_more_req at h
    obtain ⟨v, hpv, hrest⟩ := bind_ok_inv h
    have h1 : Extends s v := extends_step (extends_trivia s hb) hp hpv
    split at hrest
    · injection hrest with h2
      rw [← h2]
      exact h1
    · exact extends_trans h1 (ih v t (extends_bound h1) hrest)

/-- `n_or_more` is sound. -/
theorem sound_n_or_more (fuel n : Nat) (p : M) (hp : Sound p) :
    Sound (Parser.n_or_more fuel n p) := by
  intro s t hb h
  unfold Parser.n_or_more at h
  split at h
  · injection h with h2
    rw [← h2]
    exact extends_refl s hb
  · obtain ⟨v, hv, hrest⟩ := bind_ok_inv h
    have h1 : Extends s v := sound_n_or_more_req p hp n s v hb hv
    split at hrest
    · injection hrest with h2
      rw [← h2]
      exact h1
    · exact extends_trans h1 (sound_n_or_more_go p hp fuel v t (extends_bound h1) hrest)

/-- `zero_or_more` is sound. -/
theorem sound_zero_or_more (fuel : Nat) (p : M) (hp : Sound p) :
    Sound (Parser.zero_or_more fuel p) :=
  sound_n_or_more fuel 0 p hp

/-- `one_or_more` is sound. -/
theorem sound_one_or_more (fuel : Nat) (p : M) (hp : Sound p) :
    Sound (Parser.one_or_more fuel p) :=
  sound_n_or_more fuel 1 p hp

/-- The packrat wrapper is sound. -/
theorem sound_cached (k : SyntaxKind) (p : M) (hp : Sound p) :
    Sound (Parser.cached k p) := by
  intro s t hb h
  unfold Parser.cached at h
  dsimp only at h
  split at h
  · injection h with h2
    rw [← h2]
    exact extends_same_fields _ (extends_refl s hb) rfl rfl rfl rfl
  · obtain ⟨s2, hps, hrest⟩ := bind_ok_inv h
    have h2 : Extends s s2 := hp s s2 hb hps
    split at hrest
    · injection hrest with h3
      rw [← h3]
      exact extends_same_fields _ h2 rfl rfl rfl rfl
    · injection hrest with h3
      rw [← h3]
      exact h2

/-- One alternation branch preserves reachability from the bookmark owner. -/
theorem alt_step_extends {s u : PState} {m : Bool} {p : M}
    (hbs : s.pos ≤ s.toks.length) (hp : Sound p) (hu : Extends s u)
    (res : PState × Bool)
    (h : Parser.alt_step (Parser.bookmark s) p (u, m) = Except.ok res) :
    Extends s res.1 := by
  unfold Parser.alt_step at h
  dsimp only at h
  split at h
  · injection h with h2
    rw [← h2]
    exact hu
  · split at h
    · injection h with h2
      rw [← h2]
      exact hu
    · obtain ⟨v, hpv, hrest⟩ := bind_ok_inv h
      have h1 : Extends u { Parser.trivia u with
          opt_depth := (Parser.trivia u).opt_depth + 1 } :=
        extends_same_fields _ (extends_trivia u (extends_bound hu)) rfl rfl rfl rfl
      have h2 : Extends s v := extends_trans hu (extends_step h1 hp hpv)
      split at hrest
      · injection hrest with h3
        rw [← h3]
        exact extends_same_fields _ h2 rfl rfl rfl rfl
      · injection hrest with h3
        rw [← h3]
        exact restore_extends hbs h2.toks_eq h2.src_eq h2.out_pre

/-- Folding the alternation branches preserves reachability. -/
theorem alt_fold_extends {s : PState} (hbs : s.pos ≤ s.toks.length) :
    ∀ (ps : List M), (∀ p ∈ ps, Sound p) →
    ∀ (u : PState) (m : Bool) (res : PState × Bool), Extends s u →
      List.foldlM (fun acc p => Parser.alt_step (Parser.bookmark s) p acc) (u, m) ps =
        Except.ok res →
      Extends s res.1 := by
  intro ps
  induction ps with
  | nil =>
    intro _ u m res hu h
    have h' : Except.ok (u, m) = Except.ok res := h
    injection h' with h2
    rw [← h2]
    exact hu
  | cons p rest ih =>
    intro hs u m res hu h
    rw [List.foldlM_cons] at h
    obtain ⟨⟨u2, m2⟩, hstep, hrest⟩ := bind_ok_inv h
    have hu2 : Extends s u2 :=
      alt_step_extends hbs (hs p (List.mem_cons_self p rest)) hu (u2, m2) hstep
    exact ih (fun q hq => hs q (List.mem_cons_of_mem p hq)) u2 m2 res hu2 hrest

/-- An alternation of sound branches is sound. -/
theorem sound_alts (ps : List M) (hs : ∀ p ∈ ps, Sound p) : Sound (Parser.alts ps) := by
  intro s t hb h
  unfold Parser.alts at h
  dsimp only at h
  obtain ⟨⟨u, m⟩, hfold, hrest⟩ := bind_ok_inv h
  have hu : Extends s u := alt_fold_extends hb ps hs s false (u, m) (extends_refl s hb) hfold
  dsimp only at hrest
  split at hrest
  · injection hrest with h2
    rw [← h2]
    exact extends_same_fields _ hu rfl rfl rfl rfl
  · have hbu := extends_bound hu
    exact extends_trans hu
      (extends_cast_left (extends_handle_errors hrest hbu) rfl rfl rfl rfl)


/-- The default branch of `top_level_item` (unknown token): error event,
`ERROR` node around the bumped token, failure state. -/
theorem extends_error_item (s : PState) (hb : s.pos ≤ s.toks.length)
    (msg : String) (sp : Span) :
    Extends s
      (let s1 : PState := { s with out := s.out.push_error msg sp }
       let s2 : PState := { s1 with out := s1.out.begin ERROR }
       let s3 : PState := Parser.bump s2
       let s4 : PState := { s3 with out := s3.out.close }
       { s4 with state := PMode.failure }) := by
  have c1 := extends_push_error s hb msg sp
  have c2 := extends_trans c1 (extends_out_begin _ (extends_bound c1) ERROR)
  have c3 := extends_trans c2 (extends_bump _ (extends_bound c2))
  have c4 := extends_trans c3 (extends_out_close _ (extends_bound c3))
  exact extends_same_fields _ c4 rfl rfl rfl rfl

/-- Every grammar function of the parser is sound at every fuel: a successful
run only moves the cursor forward and appends to the output exactly the token
events of the consumed tokens, in order. -/
theorem grammar_sound : ∀ (n : Nat),
    Sound (Parser.top_level_item n) ∧ Sound (Parser.import_stmt n) ∧
    Sound (Parser.rule_decl n) ∧ Sound (Parser.rule_mods n) ∧
    Sound (Parser.rule_tags n) ∧ Sound (Parser.meta_blk n) ∧
    Sound (Parser.meta_def n) ∧ Sound (Parser.patterns_blk n) ∧
    Sound (Parser.pattern_def n) ∧ Sound (Parser.pattern_mods n) ∧
    Sound (Parser.pattern_mod n) ∧ Sound (Parser.condition_blk n) ∧
    Sound (Parser.hex_pattern n) ∧ Sound (Parser.hex_sub_pattern n) ∧
    Sound (Parser.hex_alternative n) ∧ Sound (Parser.hex_jump n) ∧
    Sound (Parser.boolean_expr n) ∧ Sound (Parser.boolean_term n) ∧
    Sound (Parser.expr n) ∧ Sound (Parser.term n) ∧ Sound (Parser.range n) ∧
    Sound (Parser.primary_expr n) ∧ Sound (Parser.for_expr n) ∧
    Sound (Parser.of_expr n) ∧ Sound (Parser.quantifier n) ∧
    Sound (Parser.iterable n) ∧ Sound (Parser.boolean_expr_tuple n) ∧
    Sound (Parser.expr_tuple n) ∧ Sound (Parser.pattern_ident_tuple n) := by
  intro n
  induction n with
  | zero =>
    exact ⟨fun _ _ _ h => Except.noConfusion h, fun _ _ _ h => Except.noConfusion h,
      fun _ _ _ h => Except.noConfusion h, fun _ _ _ h => Except.noConfusion h,
      fun _ _ _ h => Except.noConfusion h, fun _ _ _ h => Except.noConfusion h,
      fun _ _ _ h => Except.noConfusion h, fun _ _ _ h => Except.noConfusion h,
      fun _ _ _ h => Except.noConfusion h, fun _ _ _ h => Except.noConfusion h,
      fun _ _ _ h => Except.noConfusion h, fun _ _ _ h => Except.noConfusion h,
      fun _ _ _ h => Except.noConfusion h, fun _ _ _ h => Except.noConfusion h,
      fun _ _ _ h => Except.noConfusion h, fun _ _ _ h => Except.noConfusion h,
      fun _ _ _ h => Except.noConfusion h, fun _ _ _ h => Except.noConfusion h,
      fun _ _ _ h => Except.noConfusion h, fun _ _ _ h => Except.noConfusion h,
      fun _ _ _ h => Except.noConfusion h, fun _ _ _ h => Except.noConfusion h,
      fun _ _ _ h => Except.noConfusion h, fun _ _ _ h => Except.noConfusion h,
      fun _ _ _ h => Except.noConfusion h, fun _ _ _ h => Except.noConfusion h,
      fun _ _ _ h => Except.noConfusion h, fun _ _ _ h => Except.noConfusion h,
      fun _ _ _ h => Except.noConfusion h⟩
  | succ n ih =>
    obtain ⟨htli, himp, hrd, hrm, hrt, hmb, hmd, hpb, hpd, hpms, hpm, hcb, hhp,
      hhsp, hha, hhj, hbe, hbt, hex, htm, hrg, hpe, hfe, hoe, hq, hit, hbet,
      het, hpit⟩ := ih
    refine ⟨?_, ?_, ?_, ?_, ?_, ?_, ?_, ?_, ?_, ?_, ?_, ?_, ?_, ?_, ?_, ?_,
      ?_, ?_, ?_, ?_, ?_, ?_, ?_, ?_, ?_, ?_, ?_, ?_, ?_⟩
    · -- top_level_item
      intro s t hb h
      unfold Parser.top_level_item at h
      dsimp only at h
      split at h
      · injection h with h2
        rw [← h2]
        exact extends_same_fields _ (extends_refl s hb) rfl rfl rfl rfl
      · split at h <;>
          first
            | exact himp s t hb h
            | exact hrd s t hb h
            | (injection h with h2
               rw [← h2]
               exact extends_error_item s hb _ _)
    · -- import_stmt
      intro s t hb h
      unfold Parser.import_stmt at h
      dsimp only at h
      obtain ⟨s1, h1, h⟩ := bind_ok_inv h
      have e1 := extends_step (extends_begin IMPORT_STMT s hb) (sound_expect _) h1
      obtain ⟨s2, h2, h⟩ := bind_ok_inv h
      have e2 := extends_step e1 (sound_expect _) h2
      injection h with h
      rw [← h]
      exact extends_trans e2 (extends_close s2 (extends_bound e2))
    · -- rule_decl
      intro s t hb h
      unfold Parser.rule_decl at h
      dsimp only at h
      obtain ⟨s1, h1, h⟩ := bind_ok_inv h
      have e1 := extends_step (extends_begin RULE_DECL s hb) (sound_opt _ hrm) h1
      obtain ⟨s2, h2, h⟩ := bind_ok_inv h
      have e2 := extends_step e1 (sound_expect _) h2
      obtain ⟨s3, h3, h⟩ := bind_ok_inv h
      have e3 := extends_step e2 (sound_expect _) h3
      obtain ⟨s4, h4, h⟩ := bind_ok_inv h
      have e4 := extends_step e3 (sound_if_next _ _ hrt) h4
      obtain ⟨s5, h5, h⟩ := bind_ok_inv h
      have e5 := extends_step e4 (sound_recover_and_sync _) h5
      obtain ⟨s6, h6, h⟩ := bind_ok_inv h
      have e6 := extends_step e5 (sound_expect _) h6
      obtain ⟨s7, h7, h⟩ := bind_ok_inv h
      have e7 := extends_step e6 (sound_recover_and_sync _) h7
      obtain ⟨s8, h8, h⟩ := bind_ok_inv h
      have e8 := extends_step e7 (sound_if_next _ _ hmb) h8
      obtain ⟨s9, h9, h⟩ := bind_ok_inv h
      have e9 := extends_step e8 (sound_recover_and_sync _) h9
      obtain ⟨s10, h10, h⟩ := bind_ok_inv h
      have e10 := extends_step e9 (sound_if_next _ _ hpb) h10
      obtain ⟨s11, h11, h⟩ := bind_ok_inv h
      have e11 := extends_step e10 (sound_recover_and_sync _) h11
      obtain ⟨s12, h12, h⟩ := bind_ok_inv h
      have e12 := extends_step e11 hcb h12
      obtain ⟨s13, h13, h⟩ := bind_ok_inv h
      have e13 := extends_step e12 (sound_recover_and_sync _) h13
      obtain ⟨s14, h14, h⟩ := bind_ok_inv h
      have e14 := extends_step e13 (sound_expect _) h14
      injection h with h
      rw [← h]
      exact extends_trans e14 (extends_close s14 (extends_bound e14))
    · -- rule_mods
      intro s t hb h
      unfold Parser.rule_mods at h
      dsimp only at h
      obtain ⟨s1, h1, h⟩ := bind_ok_inv h
      have e1 : Extends s s1 := by
        refine extends_step (extends_begin RULE_MODS s hb) (sound_alts _ ?_) h1
        intro p hp
        simp only [List.mem_cons, List.mem_singleton, List.not_mem_nil, or_false] at hp
        rcases hp with rfl | rfl
        · exact sound_seq _ _ (sound_expect _) (sound_opt_expect _)
        · exact sound_seq _ _ (sound_expect _) (sound_opt_expect _)
      injection h with h
      rw [← h]
      exact extends_trans e1 (extends_close s1 (extends_bound e1))
    · -- rule_tags
      intro s t hb h
      unfold Parser.rule_tags at h
      dsimp only at h
      obtain ⟨s1, h1, h⟩ := bind_ok_inv h
      have e1 := extends_step (extends_begin RULE_TAGS s hb) (sound_expect _) h1
      obtain ⟨s2, h2, h⟩ := bind_ok_inv h
      have e2 := extends_step e1 (sound_one_or_more _ _ (sound_expect _)) h2
      injection h with h
      rw [← h]
      exact extends_trans e2 (extends_close s2 (extends_bound e2))
    · -- meta_blk
      intro s t hb h
      unfold Parser.meta_blk at h
      dsimp only at h
      obtain ⟨s1, h1, h⟩ := bind_ok_inv h
      have e1 := extends_step (extends_begin META_BLK s hb) (sound_expect _) h1
      obtain ⟨s2, h2, h⟩ := bind_ok_inv h
      have e2 := extends_step e1 (sound_expect _) h2
      obtain ⟨s3, h3, h⟩ := bind_ok_inv h
      have e3 := extends_step e2 (sound_one_or_more _ _ hmd) h3
      injection h with h
      rw [← h]
      exact extends_trans e3 (extends_close s3 (extends_bound e3))
    · -- meta_def
      intro s t hb h
      unfold Parser.meta_def at h
      dsimp only at h
      obtain ⟨s1, h1, h⟩ := bind_ok_inv h
      have e1 := extends_step (extends_begin META_DEF s hb) (sound_expect _) h1
      obtain ⟨s2, h2, h⟩ := bind_ok_inv h
      have e2 := extends_step e1 (sound_expect _) h2
      obtain ⟨s3, h3, h⟩ := bind_ok_inv h
      have e3 : Extends s s3 := by
        refine extends_step e2 (sound_alts _ ?_) h3
        intro p hp
        simp only [List.mem_cons, List.mem_singleton, List.not_mem_nil, or_false] at hp
        rcases hp with rfl | rfl
        · exact sound_seq _ _ (sound_opt_expect _) (sound_expect _)
        · exact sound_expect _
      injection h with h
      rw [← h]
      exact extends_trans e3 (extends_close s3 (extends_bound e3))
    · -- patterns_blk
      intro s t hb h
      unfold Parser.patterns_blk at h
      dsimp only at h
      obtain ⟨s1, h1, h⟩ := bind_ok_inv h
      have e1 := extends_step (extends_begin PATTERNS_BLK s hb) (sound_expect _) h1
      obtain ⟨s2, h2, h⟩ := bind_ok_inv h
      have e2 := extends_step e1 (sound_expect _) h2
      obtain ⟨s3, h3, h⟩ := bind_ok_inv h
      have e3 := extends_step e2 (sound_one_or_more _ _ hpd) h3
      injection h with h
      rw [← h]
      exact extends_trans e3 (extends_close s3 (extends_bound e3))
    · -- pattern_def
      intro s t hb h
      unfold Parser.pattern_def at h
      dsimp only at h
      obtain ⟨s1, h1, h⟩ := bind_ok_inv h
      have e1 := extends_step (extends_begin PATTERN_DEF s hb) (sound_expect _) h1
      obtain ⟨s2, h2, h⟩ := bind_ok_inv h
      have e2 := extends_step e1 (sound_expect _) h2
      obtain ⟨s3, h3, h⟩ := bind_ok_inv h
      have e3 : Extends s s3 := by
        refine extends_step e2 (sound_alts _ ?_) h3
        intro p hp
        simp only [List.mem_cons, List.mem_singleton, List.not_mem_nil, or_false] at hp
        rcases hp with rfl | rfl | rfl
        · exact sound_expect _
        · exact sound_expect _
        · exact hhp
      obtain ⟨s4, h4, h⟩ := bind_ok_inv h
      have e4 := extends_step e3 (sound_opt _ hpms) h4
      injection h with h
      rw [← h]
      exact extends_trans e4 (extends_close s4 (extends_bound e4))
    · -- pattern_mods
      intro s t hb h
      unfold Parser.pattern_mods at h
      dsimp only at h
      obtain ⟨s1, h1, h⟩ := bind_ok_inv h
      have e1 := extends_step (extends_begin PATTERN_MODS s hb)
        (sound_one_or_more _ _ hpm) h1
      injection h with h
      rw [← h]
      exact extends_trans e1 (extends_close s1 (extends_bound e1))
    · -- pattern_mod
      intro s t hb h
      unfold Parser.pattern_mod at h
      dsimp only at h
      obtain ⟨s1, h1, h⟩ := bind_ok_inv h
      have e1 : Extends s s1 := by
        refine extends_step (extends_begin PATTERN_MOD s hb) (sound_alts _ ?_) h1
        intro p hp
        simp only [List.mem_cons, List.mem_singleton, List.not_mem_nil, or_false] at hp
        rcases hp with rfl | rfl | rfl
        · exact sound_expect_d _ _
        · exact sound_seq _ _ (sound_expect_d _ _) (sound_opt _
            (sound_seq _ _ (sound_expect _)
              (sound_seq _ _ (sound_expect _) (sound_expect _))))
        · exact sound_seq _ _ (sound_expect_d _ _) (sound_opt _
            (sound_seq _ _ (sound_expect _)
              (sound_seq _ _ (sound_expect _)
                (sound_seq _ _
                  (sound_opt _ (sound_seq _ _ (sound_expect _) (sound_expect _)))
                  (sound_expect _)))))
      injection h with h
      rw [← h]
      exact extends_trans e1 (extends_close s1 (extends_bound e1))
    · -- condition_blk
      intro s t hb h
      unfold Parser.condition_blk at h
      dsimp only at h
      obtain ⟨s1, h1, h⟩ := bind_ok_inv h
      have e1 := extends_step (extends_begin CONDITION_BLK s hb) (sound_expect _) h1
      obtain ⟨s2, h2, h⟩ := bind_ok_inv h
      have e2 := extends_step e1 (sound_expect _) h2
      obtain ⟨s3, h3, h⟩ := bind_ok_inv h
      have e3 := extends_step e2 (sound_then _ hbe) h3
      injection h with h
      rw [← h]
      exact extends_trans e3 (extends_close s3 (extends_bound e3))
    · -- hex_pattern
      intro s t hb h
      unfold Parser.hex_pattern at h
      dsimp only at h
      obtain ⟨s1, h1, h⟩ := bind_ok_inv h
      have e1 := extends_step (extends_begin HEX_PATTERN s hb) (sound_expect _) h1
      obtain ⟨s2, h2, h⟩ := bind_ok_inv h
      have e2 := extends_step e1 (sound_then _ hhsp) h2
      obtain ⟨s3, h3, h⟩ := bind_ok_inv h
      have e3 := extends_step e2 (sound_expect _) h3
      injection h with h
      rw [← h]
      exact extends_trans e3 (extends_close s3 (extends_bound e3))
    · -- hex_sub_pattern
      intro s t hb h
      unfold Parser.hex_sub_pattern at h
      dsimp only at h
      obtain ⟨s1, h1, h⟩ := bind_ok_inv h
      have e1 : Extends s s1 := by
        refine extends_step (extends_begin HEX_SUB_PATTERN s hb) (sound_alts _ ?_) h1
        intro p hp
        simp only [List.mem_cons, List.mem_singleton, List.not_mem_nil, or_false] at hp
        rcases hp with rfl | rfl
        · exact sound_expect _
        · exact hha
      obtain ⟨s2, h2, h⟩ := bind_ok_inv h
      have e2 : Extends s s2 := by
        refine extends_step e1 (sound_zero_or_more _ _
          (sound_seq _ _ (sound_zero_or_more _ _ hhj) (sound_alts _ ?_))) h2
        intro p hp
        simp only [List.mem_cons, List.mem_singleton, List.not_mem_nil, or_false] at hp
        rcases hp with rfl | rfl
        · exact sound_expect _
        · exact hha
      injection h with h
      rw [← h]
      exact extends_trans e2 (extends_close s2 (extends_bound e2))
    · -- hex_alternative
      intro s t hb h
      unfold Parser.hex_alternative at h
      dsimp only at h
      obtain ⟨s1, h1, h⟩ := bind_ok_inv h
      have e1 := extends_step (extends_begin HEX_ALTERNATIVE s hb) (sound_expect _) h1
      obtain ⟨s2, h2, h⟩ := bind_ok_inv h
      have e2 := extends_step e1 (sound_then _ hhsp) h2
      obtain ⟨s3, h3, h⟩ := bind_ok_inv h
      have e3 := extends_step e2 (sound_zero_or_more _ _
        (sound_seq _ _ (sound_expect _) (sound_then _ hhsp))) h3
      obtain ⟨s4, h4, h⟩ := bind_ok_inv h
      have e4 := extends_step e3 (sound_expect _) h4
      injection h with h
      rw [← h]
      exact extends_trans e4 (extends_close s4 (extends_bound e4))
    · -- hex_jump
      intro s t hb h
      unfold Parser.hex_jump at h
      dsimp only at h
      obtain ⟨s1, h1, h⟩ := bind_ok_inv h
      have e1 := extends_step (extends_begin HEX_JUMP s hb) (sound_expect _) h1
      obtain ⟨s2, h2, h⟩ := bind_ok_inv h
      have e2 : Extends s s2 := by
        refine extends_step e1 (sound_alts _ ?_) h2
        intro p hp
        simp only [List.mem_cons, List.mem_singleton, List.not_mem_nil, or_false] at hp
        rcases hp with rfl | rfl
        · exact sound_seq _ _ (sound_opt_expect _)
            (sound_seq _ _ (sound_expect _) (sound_opt_expect _))
        · exact sound_expect _
      obtain ⟨s3, h3, h⟩ := bind_ok_inv h
      have e3 := extends_step e2 (sound_expect _) h3
      injection h with h
      rw [← h]
      exact extends_trans e3 (extends_close s3 (extends_bound e3))
    · -- boolean_expr
      intro s t hb h
      unfold Parser.boolean_expr at h
      dsimp only at h
      obtain ⟨s1, h1, h⟩ := bind_ok_inv h
      have e1 := extends_step (extends_begin BOOLEAN_EXPR s hb) hbt h1
      obtain ⟨s2, h2, h⟩ := bind_ok_inv h
      have e2 := extends_step e1 (sound_zero_or_more _ _
        (sound_seq _ _ (sound_expect _) (sound_then _ hbt))) h2
      injection h with h
      rw [← h]
      exact extends_trans e2 (extends_close s2 (extends_bound e2))
    · -- boolean_term
      intro s t hb h
      unfold Parser.boolean_term at h
      dsimp only at h
      obtain ⟨s1, h1, h⟩ := bind_ok_inv h
      have e1 : Extends s s1 := by
        refine extends_step (extends_begin BOOLEAN_TERM s hb) (sound_alts _ ?_) h1
        intro p hp
        simp only [List.mem_cons, List.mem_singleton, List.not_mem_nil, or_false] at hp
        rcases hp with rfl | rfl | rfl | rfl | rfl | rfl | rfl
        · exact sound_seq _ _ (sound_expect _)
            (sound_seq _ _ (sound_cond _ _ hex) (sound_cond _ _ hrg))
        · exact sound_expect _
        · exact sound_seq _ _ (sound_expect _) (sound_then _ hbt)
        · exact hfe
        · exact hoe
        · exact sound_seq _ _ hex (sound_zero_or_more _ _
            (sound_seq _ _ (sound_expect _) (sound_then _ hex)))
        · exact sound_seq _ _ (sound_expect _)
            (sound_seq _ _ (sound_then _ hbe) (sound_expect _))
      injection h with h
      rw [← h]
      exact extends_trans e1 (extends_close s1 (extends_bound e1))
    · -- expr
      intro s t hb h
      unfold Parser.expr at h
      dsimp only at h
      obtain ⟨s1, h1, h⟩ := bind_ok_inv h
      have e1 := extends_step (extends_begin EXPR s hb) htm h1
      obtain ⟨s2, h2, h⟩ := bind_ok_inv h
      have e2 := extends_step e1 (sound_zero_or_more _ _
        (sound_seq _ _ (sound_expect _) (sound_then _ htm))) h2
      injection h with h
      rw [← h]
      exact extends_trans e2 (extends_close s2 (extends_bound e2))
    · -- term
      intro s t hb h
      unfold Parser.term at h
      dsimp only at h
      obtain ⟨s1, h1, h⟩ := bind_ok_inv h
      have e1 := extends_step (extends_begin TERM s hb) (sound_then _ hpe) h1
      obtain ⟨s2, h2, h⟩ := bind_ok_inv h
      have e2 := extends_step e1
        (sound_cond _ _ (sound_seq _ _ hex (sound_expect _))) h2
      obtain ⟨s3, h3, h⟩ := bind_ok_inv h
      have e3 := extends_step e2
        (sound_cond _ _ (sound_seq _ _ (sound_opt _ hbe)
          (sound_seq _ _ (sound_zero_or_more _ _
            (sound_seq _ _ (sound_expect _) (sound_then _ hbe)))
            (sound_expect _)))) h3
      injection h with h
      rw [← h]
      exact extends_trans e3 (extends_close s3 (extends_bound e3))
    · -- range
      intro s t hb h
      unfold Parser.range at h
      dsimp only at h
      obtain ⟨s1, h1, h⟩ := bind_ok_inv h
      have e1 := extends_step (extends_begin RANGE s hb) (sound_expect _) h1
      obtain ⟨s2, h2, h⟩ := bind_ok_inv h
      have e2 := extends_step e1 (sound_then _ hex) h2
      obtain ⟨s3, h3, h⟩ := bind_ok_inv h
      have e3 := extends_step e2 (sound_expect _) h3
      obtain ⟨s4, h4, h⟩ := bind_ok_inv h
      have e4 := extends_step e3 (sound_expect _) h4
      obtain ⟨s5, h5, h⟩ := bind_ok_inv h
      have e5 := extends_step e4 (sound_then _ hex) h5
      obtain ⟨s6, h6, h⟩ := bind_ok_inv h
      have e6 := extends_step e5 (sound_expect _) h6
      injection h with h
      rw [← h]
      exact extends_trans e6 (extends_close s6 (extends_bound e6))
    · -- primary_expr
      intro s t hb h
      unfold Parser.primary_expr at h
      dsimp only at h
      refine sound_cached _ _ ?_ s t hb h
      intro s' t' hb' h'
      obtain ⟨u, h1, h2⟩ := bind_ok_inv h'
      have e1 : Extends s' u := by
        refine extends_step (extends_begin PRIMARY_EXPR s' hb') (sound_alts _ ?_) h1
        intro p hp
        simp only [List.mem_cons, List.mem_singleton, List.not_mem_nil, or_false] at hp
        rcases hp with rfl | rfl | rfl | rfl | rfl | rfl | rfl
        · exact sound_expect_d _ _
        · exact sound_seq _ _ (sound_expect_d _ _) (sound_opt _
            (sound_seq _ _ (sound_expect _) (sound_then _ hrg)))
        · exact sound_seq _ _ (sound_expect_d _ _) (sound_opt _
            (sound_seq _ _ (sound_expect _)
              (sound_seq _ _ (sound_then _ hex) (sound_expect _))))
        · exact sound_seq _ _ (sound_expect_d _ _) (sound_then _ htm)
        · exact sound_seq _ _ (sound_expect_d _ _) (sound_then _ htm)
        · exact sound_seq _ _ (sound_expect_d _ _)
            (sound_seq _ _ (sound_then _ hex) (sound_expect _))
        · exact sound_seq _ _ (sound_expect_d _ _) (sound_zero_or_more _ _
            (sound_seq _ _ (sound_expect _) (sound_expect _)))
      injection h2 with h3
      rw [← h3]
      exact extends_trans e1 (extends_close u (extends_bound e1))
    · -- for_expr
      intro s t hb h
      unfold Parser.for_expr at h
      dsimp only at h
      obtain ⟨s1, h1, h⟩ := bind_ok_inv h
      have e1 := extends_step (extends_begin FOR_EXPR s hb) (sound_expect _) h1
      obtain ⟨s2, h2, h⟩ := bind_ok_inv h
      have e2 := extends_step e1 (sound_then _ hq) h2
      obtain ⟨s3, h3, h⟩ := bind_ok_inv h
      have e3 : Extends s s3 := by
        refine extends_step e2 (sound_alts _ ?_) h3
        intro p hp
        simp only [List.mem_cons, List.mem_singleton, List.not_mem_nil, or_false] at hp
        rcases hp with rfl | rfl
        · refine sound_seq _ _ (sound_expect _) (sound_alts _ ?_)
          intro q hq2
          simp only [List.mem_cons, List.mem_singleton, List.not_mem_nil, or_false] at hq2
          rcases hq2 with rfl | rfl
          · exact sound_expect _
          · exact hpit
        · exact sound_seq _ _ (sound_expect _)
            (sound_seq _ _ (sound_zero_or_more _ _
              (sound_seq _ _ (sound_expect _) (sound_expect _)))
              (sound_seq _ _ (sound_expect _) (sound_then _ hit)))
      obtain ⟨s4, h4, h⟩ := bind_ok_inv h
      have e4 := extends_step e3 (sound_expect _) h4
      obtain ⟨s5, h5, h⟩ := bind_ok_inv h
      have e5 := extends_step e4 (sound_expect _) h5
      obtain ⟨s6, h6, h⟩ := bind_ok_inv h
      have e6 := extends_step e5 (sound_then _ hbe) h6
      obtain ⟨s7, h7, h⟩ := bind_ok_inv h
      have e7 := extends_step e6 (sound_expect _) h7
      injection h with h
      rw [← h]
      exact extends_trans e7 (extends_close s7 (extends_bound e7))
    · -- of_expr
      intro s t hb h
      unfold Parser.of_expr at h
      dsimp only at h
      obtain ⟨s1, h1, h⟩ := bind_ok_inv h
      have e1 := extends_step (extends_begin OF_EXPR s hb) (sound_then _ hq) h1
      obtain ⟨s2, h2, h⟩ := bind_ok_inv h
      have e2 := extends_step e1 (sound_expect _) h2
      obtain ⟨s3, h3, h⟩ := bind_ok_inv h
      have e3 : Extends s s3 := by
        refine extends_step e2 (sound_alts _ ?_) h3
        intro p hp
        simp only [List.mem_cons, List.mem_singleton, List.not_mem_nil, or_false] at hp
        rcases hp with rfl | rfl
        · refine sound_seq _ _ (sound_alts _ ?_)
            (sound_seq _ _ (sound_cond _ _ hex) (sound_cond _ _ hrg))
          intro q hq2
          simp only [List.mem_cons, List.mem_singleton, List.not_mem_nil, or_false] at hq2
          rcases hq2 with rfl | rfl
          · exact sound_expect _
          · exact hpit
        · exact sound_seq _ _ hbet (sound_not _ (sound_expect _))
      injection h with h
      rw [← h]
      exact extends_trans e3 (extends_close s3 (extends_bound e3))
    · -- quantifier
      intro s t hb h
      unfold Parser.quantifier at h
      dsimp only at h
      obtain ⟨s1, h1, h⟩ := bind_ok_inv h
      have e1 : Extends s s1 := by
        refine extends_step (extends_begin QUANTIFIER s hb) (sound_alts _ ?_) h1
        intro p hp
        simp only [List.mem_cons, List.mem_singleton, List.not_mem_nil, or_false] at hp
        rcases hp with rfl | rfl | rfl
        · exact sound_expect _
        · exact sound_seq _ _ hpe (sound_expect _)
        · exact sound_seq _ _ hex (sound_not _ (sound_expect _))
      injection h with h
      rw [← h]
      exact extends_trans e1 (extends_close s1 (extends_bound e1))
    · -- iterable
      intro s t hb h
      unfold Parser.iterable at h
      dsimp only at h
      obtain ⟨s1, h1, h⟩ := bind_ok_inv h
      have e1 : Extends s s1 := by
        refine extends_step (extends_begin ITERABLE s hb) (sound_alts _ ?_) h1
        intro p hp
        simp only [List.mem_cons, List.mem_singleton, List.not_mem_nil, or_false] at hp
        rcases hp with rfl | rfl | rfl
        · exact hrg
        · exact het
        · exact hex
      injection h with h
      rw [← h]
      exact extends_trans e1 (extends_close s1 (extends_bound e1))
    · -- boolean_expr_tuple
      intro s t hb h
      unfold Parser.boolean_expr_tuple at h
      dsimp only at h
      obtain ⟨s1, h1, h⟩ := bind_ok_inv h
      have e1 := extends_step (extends_begin BOOLEAN_EXPR_TUPLE s hb) (sound_expect _) h1
      obtain ⟨s2, h2, h⟩ := bind_ok_inv h
      have e2 := extends_step e1 (sound_then _ hbe) h2
      obtain ⟨s3, h3, h⟩ := bind_ok_inv h
      have e3 := extends_step e2 (sound_zero_or_more _ _
        (sound_seq _ _ (sound_expect _) (sound_then _ hbe))) h3
      obtain ⟨s4, h4, h⟩ := bind_ok_inv h
      have e4 := extends_step e3 (sound_expect _) h4
      injection h with h
      rw [← h]
      exact extends_trans e4 (extends_close s4 (extends_bound e4))
    · -- expr_tuple
      intro s t hb h
      unfold Parser.expr_tuple at h
      dsimp only at h
      obtain ⟨s1, h1, h⟩ := bind_ok_inv h
      have e1 := extends_step (extends_begin EXPR_TUPLE s hb) (sound_expect _) h1
      obtain ⟨s2, h2, h⟩ := bind_ok_inv h
      have e2 := extends_step e1 (sound_then _ hex) h2
      obtain ⟨s3, h3, h⟩ := bind_ok_inv h
      have e3 := extends_step e2 (sound_zero_or_more _ _
        (sound_seq _ _ (sound_expect _) (sound_then _ hex))) h3
      obtain ⟨s4, h4, h⟩ := bind_ok_inv h
      have e4 := extends_step e3 (sound_expect _) h4
      injection h with h
      rw [← h]
      exact extends_trans e4 (extends_close s4 (extends_bound e4))
    · -- pattern_ident_tuple
      intro s t hb h
      unfold Parser.pattern_ident_tuple at h
      dsimp only at h
      obtain ⟨s1, h1, h⟩ := bind_ok_inv h
      have e1 := extends_step (extends_begin PATTERN_IDENT_TUPLE s hb) (sound_expect _) h1
      obtain ⟨s2, h2, h⟩ := bind_ok_inv h
      have e2 := extends_step e1 (sound_expect _) h2
      obtain ⟨s3, h3, h⟩ := bind_ok_inv h
      have e3 := extends_step e2 (sound_opt_expect _) h3
      obtain ⟨s4, h4, h⟩ := bind_ok_inv h
      have e4 := extends_step e3 (sound_zero_or_more _ _
        (sound_seq _ _ (sound_expect _)
          (sound_seq _ _ (sound_expect _) (sound_opt_expect _)))) h4
      obtain ⟨s5, h5, h⟩ := bind_ok_inv h
      have e5 := extends_step e4 (sound_expect _) h5
      injection h with h
      rw [← h]
      exact extends_trans e5 (extends_close s5 (extends_bound e5))


/-- One driver round is sound. -/
theorem sound_item_step (g : Nat) : Sound (Parser.item_step g) := by
  intro s t hb h
  unfold Parser.item_step at h
  dsimp only at h
  obtain ⟨s1, h1, h⟩ := bind_ok_inv h
  have e1 : Extends s s1 := extends_step (extends_trivia s hb) (grammar_sound g).1 h1
  injection h with h
  rw [← h]
  have e2 := extends_trans e1 (extends_flush s1 (extends_bound e1))
  exact extends_same_fields _ e2 rfl rfl rfl rfl

/-- A completing driver loop emits exactly the spans of the remaining tokens,
in order: each round contributes the spans of the tokens it consumed, and the
loop only ends once the cursor reached the end of the token stream. -/
theorem events_loop_spans (g : Nat) : ∀ (d : Nat) (s : PState) (evs : List Event),
    s.out.events = [] → s.pos ≤ s.toks.length →
    Parser.events_loop g d s = Except.ok evs →
    tok_spans evs = spans_between s.toks s.pos s.toks.length := by
  intro d
  induction d with
  | zero => intro s evs h0 hb h; exact Except.noConfusion h
  | succ d ih =>
    intro s evs h0 hb h
    unfold Parser.events_loop at h
    split at h
    · obtain ⟨u, h1, h⟩ := bind_ok_inv h
      obtain ⟨rest, h2, h⟩ := bind_ok_inv h
      have e1 : Extends s u := sound_item_step g s u hb h1
      injection h with h
      have hrest0 : tok_spans rest = spans_between u.toks u.pos u.toks.length :=
        ih { u with out := SyntaxStream.empty } rest rfl (by have hx := extends_bound e1; exact hx) h2
      rw [← h, tok_spans_append]
      have hnew : tok_spans u.out.events = spans_between s.toks s.pos u.pos := by
        have hx := e1.new_spans
        rw [h0] at hx
        simpa using hx
      rw [e1.toks_eq] at hrest0
      rw [hnew, hrest0]
      exact spans_between_concat s.toks s.pos u.pos s.toks.length e1.pos_le e1.pos_bound
    · rename_i hnlt
      injection h with h
      rw [← h]
      have hpos : s.pos = s.toks.length := Nat.le_antisymm hb (Nat.le_of_not_lt hnlt)
      rw [hpos, spans_between_refl]
      rfl

/-- A completing `parse_events` run emits exactly the spans of all tokens of
the stream, in order. -/
theorem parse_events_spans (g d : Nat) (src : List Char) (toks : List Token)
    (evs : List Event) (h : Parser.parse_events g d src toks = Except.ok evs) :
    tok_spans evs = toks.map Token.span := by
  unfold Parser.parse_events at h
  split at h
  · rename_i evs0 hloop
    injection h with h
    have hspans : tok_spans evs0 = spans_between toks 0 toks.length :=
      events_loop_spans g d (Parser.init_state src toks) evs0 rfl (Nat.zero_le _) hloop
    rw [← h]
    show tok_spans evs0 = toks.map Token.span
    rw [hspans]
    unfold spans_between
    rw [List.drop_zero, Nat.sub_zero, List.take_length]
  · exact Except.noConfusion h

/-- Concatenating the texts of a tiling's token spans recovers the source
from the tiling's start offset. -/
theorem tiles_join (src : List Char) : ∀ (toks : List Token) (i : Nat),
    tiles src i toks →
    ((toks.map Token.span).map (span_text src)).flatten = src.drop i := by
  intro toks
  induction toks with
  | nil =>
    intro i h
    have h' : i = src.length := h
    simp only [List.map_nil, List.flatten_nil]
    rw [h', List.drop_length]
  | cons tk rest ih =>
    intro i h
    have h2 : tk.span.start = i ∧ i ≤ tk.span.stop ∧ tk.span.stop ≤ src.length ∧
        tiles src tk.span.stop rest := h
    obtain ⟨hstart, hle, hstop, hrest⟩ := h2
    simp only [List.map_cons, List.flatten_cons]
    rw [ih tk.span.stop hrest]
    unfold span_text
    rw [hstart]
    have hdd : src.drop tk.span.stop = (src.drop i).drop (tk.span.stop - i) := by
      rw [List.drop_drop]
      congr 1
      omega
    rw [hdd, List.take_append_drop]


/-- C1: losslessness of the parser's token events. Under the tokenizer's
contract that the token spans tile the source (`tiles`), whenever the event
iterator of `Parser::new(src)` with whitespaces enabled completes and yields
the event list `evs`, the spans of its `Token` events are exactly the spans
of all tokens of the stream, in order, and concatenating the source text of
those spans reproduces the source byte-exactly, trivia included. (Universally
over all inputs the claim is false: on `rule r{meta:a=` the iterator panics
inside `handle_errors` and the token events emitted before it cover only a
strict prefix of the source.) -/
theorem token_events_lossless (gfuel dfuel : Nat) (src : List Char)
    (toks : List Token) (evs : List Event) (htiles : tiles src 0 toks)
    (h : (ParserApi.new src toks).events gfuel dfuel = Except.ok evs) :
    tok_spans evs = toks.map Token.span ∧
    ((tok_spans evs).map (span_text src)).flatten = src := by
  have hpe : Parser.parse_events gfuel dfuel src toks = Except.ok evs := by
    unfold ParserApi.events at h
    split at h
    · rename_i evs0 heq
      have h' : Except.ok evs0 = Except.ok evs := h
      injection h' with h2
      rw [h2] at heq
      exact heq
    · exact Except.noConfusion h
  have hsp := parse_events_spans gfuel dfuel src toks evs hpe
  refine ⟨hsp, ?_⟩
  rw [hsp]
  have hj := tiles_join src toks 0 htiles
  rw [hj, List.drop_zero]

set_option maxHeartbeats 1000000 in
/-- C1 witness: the source `import "x"` with its three tokens. The tokens
tile the source, the parser completes on them, and the claim theorem applied
to this run yields the span list and the byte-exact reconstruction of the
source from the emitted token events. -/
theorem token_events_lossless_witness :
    tiles import_src 0 import_toks ∧
    tok_spans import_events = import_toks.map Token.span ∧
    ((tok_spans import_events).map (span_text import_src)).flatten = import_src := by
  have ht : tiles import_src 0 import_toks :=
    ⟨rfl, by decide, by decide, rfl, by decide, by decide, rfl, by decide,
     by decide, (show (10 : Nat) = import_src.length by decide)⟩
  obtain ⟨h1, h2⟩ :=
    token_events_lossless 8 2 import_src import_toks import_events ht (by rfl)
  exact ⟨ht, h1, h2⟩

end YaraX
